import Mathlib

/-!
Verification of the reversible bytecode VM core (TTBD): opcode metadata
tables, jump-destination analysis, the journaling forward interpreter,
the reverse executor, and the journal, shallowly embedded from the Rust
sources (`src/executor/opcodes.rs`, `src/executor/interpreter.rs`,
`src/executor/reverse.rs`, `src/vm/*.rs`, `src/journal/*.rs`).

Machine integers are modelled as `Nat` with explicit `% 2 ^ w`
truncation where the Rust code truncates (`as_u64`, `as_usize`,
`wrapping_mul` on the low limb); 256-bit values are `Nat` with wrapping
arithmetic `% 2 ^ 256`. The `Opcode` enum is `repr(u8)` and converted
to and from bytes by value in the source, so opcodes are embedded as
their byte (`Nat`), with the metadata tables keyed on the byte exactly
as the Rust `match` arms are keyed on the variants.
-/

set_option maxRecDepth 4000

namespace TTBD

/-- Byte range of PUSH1..PUSH32 (`Opcode::is_push`). -/
def isPushOp (b : Nat) : Bool := 0x60 ≤ b && b ≤ 0x7F

/-- Byte range of DUP1..DUP16 (`Opcode::is_dup`). -/
def isDupOp (b : Nat) : Bool := 0x80 ≤ b && b ≤ 0x8F

/-- Byte range of SWAP1..SWAP16 (`Opcode::is_swap`). -/
def isSwapOp (b : Nat) : Bool := 0x90 ≤ b && b ≤ 0x9F

/-- Opcode recognition (`Opcode::from_u8`): the populated byte ranges
of the enum; unpopulated bytes yield `none`. -/
def fromU8 (b : Nat) : Option Nat :=
  if b ≤ 0x0B then some b
  else if 0x10 ≤ b && b ≤ 0x1D then some b
  else if b = 0x20 then some b
  else if 0x30 ≤ b && b ≤ 0x3F then some b
  else if 0x40 ≤ b && b ≤ 0x48 then some b
  else if 0x50 ≤ b && b ≤ 0x5B then some b
  else if 0x60 ≤ b && b ≤ 0x7F then some b
  else if 0x80 ≤ b && b ≤ 0x8F then some b
  else if 0x90 ≤ b && b ≤ 0x9F then some b
  else if 0xA0 ≤ b && b ≤ 0xA4 then some b
  else if 0xF0 ≤ b && b ≤ 0xF5 then some b
  else if b = 0xFA || b = 0xFD || b = 0xFE || b = 0xFF then some b
  else none

/-- Stack arity: number of operands (`Opcode::stack_inputs`). -/
def stackInputs (b : Nat) : Nat :=
  if isPushOp b then 0
  else if isDupOp b then b - 0x80 + 1
  else if isSwapOp b then b - 0x90 + 2
  else match b with
  | 0x00 | 0x5B | 0xFE => 0
  | 0x30 | 0x32 | 0x33 | 0x34 | 0x36 | 0x38 | 0x3A | 0x3D
  | 0x41 | 0x42 | 0x43 | 0x44 | 0x45 | 0x46 | 0x47 | 0x48
  | 0x58 | 0x59 | 0x5A => 0
  | 0x15 | 0x19 | 0x50 | 0x51 | 0x54 | 0x56 | 0x31 | 0x3B | 0x3F
  | 0x40 | 0x35 => 1
  | 0x01 | 0x02 | 0x03 | 0x04 | 0x05 | 0x06 | 0x07 | 0x0A | 0x0B
  | 0x10 | 0x11 | 0x12 | 0x13 | 0x14 | 0x16 | 0x17 | 0x18 | 0x1A
  | 0x1B | 0x1C | 0x1D | 0x52 | 0x53 | 0x55 | 0x57 | 0xF3 | 0xFD => 2
  | 0x08 | 0x09 | 0x37 | 0x39 | 0x3E | 0x20 | 0xA0 => 3
  | 0x3C | 0xA1 | 0xF0 => 4
  | 0xA2 | 0xF5 => 5
  | 0xA3 | 0xF1 | 0xF2 | 0xF4 => 6
  | 0xA4 | 0xFA => 7
  | 0xFF => 1
  | _ => 0

/-- Number of values pushed (`Opcode::stack_outputs`). -/
def stackOutputs (b : Nat) : Nat :=
  if isDupOp b then b - 0x80 + 2
  else if isSwapOp b then b - 0x90 + 2
  else match b with
  | 0x00 | 0x5B | 0xFE | 0x50 | 0x52 | 0x53 | 0x55 | 0x56 | 0x57
  | 0xF3 | 0xFD | 0xFF | 0xA0 | 0xA1 | 0xA2 | 0xA3 | 0xA4
  | 0x37 | 0x39 | 0x3C | 0x3E => 0
  | _ => 1

/-- Base gas cost table (`Opcode::base_gas`). -/
def baseGas (b : Nat) : Nat :=
  if isPushOp b || isDupOp b || isSwapOp b then 3
  else match b with
  | 0x00 | 0xFE | 0xF3 | 0xFD => 0
  | 0x5B => 1
  | 0x01 | 0x03 | 0x19 | 0x10 | 0x11 | 0x12 | 0x13 | 0x14 | 0x15
  | 0x16 | 0x17 | 0x18 | 0x1A | 0x1B | 0x1C | 0x1D | 0x50
  | 0x58 | 0x59 | 0x5A => 3
  | 0x02 | 0x04 | 0x05 | 0x06 | 0x07 | 0x0B => 5
  | 0x08 | 0x09 => 8
  | 0x56 => 8
  | 0x57 => 10
  | 0x20 => 30
  | 0x30 | 0x32 | 0x33 | 0x34 | 0x36 | 0x38 | 0x3A
  | 0x41 | 0x42 | 0x43 | 0x44 | 0x45 | 0x46 | 0x47 | 0x48 | 0x3D => 2
  | 0x35 | 0x51 | 0x52 | 0x53 => 3
  | 0x54 => 100
  | 0x55 => 100
  | 0x31 | 0x3F => 100
  | 0x3B => 100
  | 0x37 | 0x39 | 0x3E => 3
  | 0x3C => 100
  | 0x40 => 20
  | 0xA0 => 375
  | 0xA1 => 750
  | 0xA2 => 1125
  | 0xA3 => 1500
  | 0xA4 => 1875
  | 0x0A => 10
  | 0xF0 => 32000
  | 0xF5 => 32000
  | 0xF1 | 0xF2 | 0xF4 | 0xFA => 100
  | 0xFF => 5000
  | _ => 3

/-- Immediate data size in bytes (`Opcode::immediate_size`): nonzero
only for PUSH1..PUSH32. -/
def immediateSize (b : Nat) : Nat :=
  if isPushOp b then b - 0x60 + 1 else 0

/-- Low 64-bit limb `2^64` modulus. -/
def U64_MOD : Nat := 2 ^ 64

/-- 256-bit wrap modulus. -/
def U256_MOD : Nat := 2 ^ 256

/-- Limb `i` of a `U256` (4 x u64, little-endian limb order). -/
def limb (v i : Nat) : Nat := v / 2 ^ (64 * i) % U64_MOD

/-- `U256::is_zero`: all four limbs zero. -/
def isZeroU (v : Nat) : Bool := v % U256_MOD == 0

/-- `U256::as_u64` / `U256::as_usize`: truncation to limb 0. -/
def asU64 (v : Nat) : Nat := v % U64_MOD

/-- `U256::as_usize` (usize is 64-bit here): truncation to limb 0. -/
def asUsize (v : Nat) : Nat := v % U64_MOD

/-- `U256::wrapping_add`: limb addition with carry, i.e. mod `2^256`. -/
def wrappingAdd (a b : Nat) : Nat := (a % U256_MOD + b % U256_MOD) % U256_MOD

/-- `U256::wrapping_sub`: limb subtraction with borrow, i.e. mod `2^256`. -/
def wrappingSub (a b : Nat) : Nat :=
  (a % U256_MOD + (U256_MOD - b % U256_MOD)) % U256_MOD

/-- Limb-wise binary bitwise operation (the AND/OR/XOR arms operate on
each of the four u64 limbs). -/
def limbwise (f : Nat → Nat → Nat) (a b : Nat) : Nat :=
  f (limb a 0) (limb b 0) + f (limb a 1) (limb b 1) * 2 ^ 64 +
    f (limb a 2) (limb b 2) * 2 ^ 128 + f (limb a 3) (limb b 3) * 2 ^ 192

/-- Limb-wise complement (the NOT arm: `!limb` on each u64 limb). -/
def notLimbs (a : Nat) : Nat :=
  (U64_MOD - 1 - limb a 0) + (U64_MOD - 1 - limb a 1) * 2 ^ 64 +
    (U64_MOD - 1 - limb a 2) * 2 ^ 128 + (U64_MOD - 1 - limb a 3) * 2 ^ 192

/-- `U256::from_be_bytes` on a big-endian byte list (most significant
first). -/
def fromBeBytes (bytes : List Nat) : Nat :=
  bytes.foldl (fun acc b => acc * 256 + b) 0

/-- `U256::to_be_bytes`: the 32 big-endian bytes of a value. -/
def toBeBytes32 (v : Nat) : List Nat :=
  (List.range 32).map (fun i => v / 256 ^ (31 - i) % 256)

/-- Loop body of `Vm::analyze_jump_dests`: walk the bytecode linearly,
marking JUMPDEST bytes and skipping `n` bytes after each PUSHn. The
fuel bounds the iteration count (each step advances `i` by at least 1,
so `code.length` suffices). -/
def analyzeLoop (code : List Nat) : Nat → Nat → List Bool → List Bool
  | 0, _, result => result
  | fuel + 1, i, result =>
    if i < code.length then
      analyzeLoop code fuel
        (i + (if 0x60 ≤ code.getD i 0 ∧ code.getD i 0 ≤ 0x7F
          then code.getD i 0 - 0x5F else 0) + 1)
        (if code.getD i 0 = 0x5B then result.set i true else result)
    else result

/-- `Vm::analyze_jump_dests`: the valid-jumpdest bitmap, a dense
boolean vector of length `|bytecode|`. -/
def analyzeJumpDests (code : List Nat) : List Bool :=
  analyzeLoop code code.length 0 (List.replicate code.length false)

/-- The instruction-start positions visited by the linear scan of
`analyze_jump_dests` (the positions reached as code). -/
def codeStartsLoop (code : List Nat) : Nat → Nat → List Nat
  | 0, _ => []
  | fuel + 1, i =>
    if i < code.length then
      i :: codeStartsLoop code fuel
        (i + (if 0x60 ≤ code.getD i 0 ∧ code.getD i 0 ≤ 0x7F
          then code.getD i 0 - 0x5F else 0) + 1)
    else []

/-- All instruction-start positions of a bytecode under the linear scan. -/
def codeStarts (code : List Nat) : List Nat := codeStartsLoop code code.length 0

/-- Spec-side predicate: position `i` lies inside the immediate window
of a PUSH instruction reached as code by the linear scan (the window of
a PUSHn at `j` is `j+1 .. j+n`). -/
def insidePushImmediate (code : List Nat) (i : Nat) : Prop :=
  ∃ j ∈ codeStarts code, 0x60 ≤ code.getD j 0 ∧ code.getD j 0 ≤ 0x7F ∧
    j < i ∧ i ≤ j + (code.getD j 0 - 0x5F)

instance (code : List Nat) (i : Nat) : Decidable (insidePushImmediate code i) := by
  unfold insidePushImmediate; infer_instance

/-- Halt reasons (`core/error.rs HaltReason`). -/
inductive HaltReason where
  | stop
  | ret (data : List Nat)
  | revert (data : List Nat)
  | outOfGas
  | invalidOpcode (opcode : Nat)
  | invalidJump
  deriving DecidableEq, Repr

/-- Structured errors (`core/error.rs VmError`). -/
inductive VmError where
  | stackUnderflow (required available : Nat)
  | stackOverflow (max : Nat)
  | outOfGas (required available : Nat)
  | invalidJump (destination : Nat)
  | invalidOpcode (opcode : Nat)
  | outOfBoundsMemory (offset size : Nat)
  | writeProtectedStorage
  | callDepthExceeded (max : Nat)
  | journalExhausted
  | checkpointNotFound (index : Nat)
  | halted (reason : HaltReason)
  deriving DecidableEq, Repr

/-- `StepResult` (`executor/interpreter.rs`). -/
inductive StepResult where
  | executed (opcode : Nat) (gasUsed : Nat)
  | halted (reason : HaltReason)
  | rewound (steps : Nat)
  deriving DecidableEq, Repr

/-- `ExecutionResult` (`executor/interpreter.rs`). -/
inductive ExecutionResult where
  | success (returnData : List Nat) (gasUsed : Nat)
  | revert (returnData : List Nat) (gasUsed : Nat)
  | halt (reason : HaltReason) (gasUsed : Nat)
  deriving DecidableEq, Repr

/-- `CallFrameSnapshot` (`vm/frame.rs`); the 20-byte addresses are byte
lists. -/
structure CallFrameSnapshot where
  pc : Nat
  gas : Nat
  address : List Nat
  caller : List Nat
  value : Nat
  isStatic : Bool
  deriving DecidableEq, Repr

/-- `CallFrame` (`vm/frame.rs`). -/
structure CallFrame where
  pc : Nat
  code : List Nat
  address : List Nat
  caller : List Nat
  value : Nat
  calldata : List Nat
  gas : Nat
  isStatic : Bool
  returnOffset : Nat
  returnSize : Nat
  deriving DecidableEq, Repr

/-- `JournalEntry` (`journal/entry.rs`): a single reversible state
mutation. -/
inductive JournalEntry where
  | stackPush (value : Nat)
  | stackPop (value : Nat)
  | memoryWrite (offset : Nat) (oldData newData : List Nat)
  | storageWrite (key oldValue newValue : Nat)
  | pcChange (oldPc newPc : Nat)
  | gasChange (oldGas newGas : Nat)
  | callEnter (callerFrame : CallFrameSnapshot)
  | callExit (calleeFrame : CallFrameSnapshot) (returnData : List Nat)
  | returnDataSet (oldData newData : List Nat)
  | memoryExpansion (oldSize newSize : Nat)
  deriving DecidableEq, Repr

/-- The tuple of fields `Vm::compute_state_hash` feeds to the hasher:
pc, gas, the stack limbs bottom-to-top, and the memory size.
`DefaultHasher` with its fixed keys is a pure function of exactly these
inputs, so the Rust 64-bit hash is a function of this tuple; the model
keeps the tuple itself as the hash value. -/
structure StateHashInput where
  pc : Nat
  gas : Nat
  stack : List Nat
  memSize : Nat
  deriving DecidableEq, Repr

/-- `InstructionJournal` (`journal/entry.rs`): header plus the ordered
delta entries of one instruction. The `state_hash` field starts as the
all-zero placeholder (modelled `none`) and is filled in by
`step_forward`. -/
structure InstructionJournal where
  pc : Nat
  opcode : Nat
  entries : List JournalEntry
  stateHash : Option StateHashInput
  gasBefore : Nat
  gasAfter : Nat
  deriving DecidableEq, Repr

/-- `StateSnapshot` (`journal/checkpoint.rs`): full copy of the VM
state containers. -/
structure StateSnapshot where
  stack : List Nat
  memory : List Nat
  storage : List (Nat × Nat)
  pc : Nat
  gas : Nat
  callDepth : Nat
  returnData : List Nat
  deriving DecidableEq, Repr

/-- `Checkpoint` (`journal/checkpoint.rs`). -/
structure Checkpoint where
  instructionIndex : Nat
  snapshot : StateSnapshot
  deriving DecidableEq, Repr

/-- `Journal` (`journal/mod.rs`): instruction journals in chronological
order (oldest first, newest last, matching `Vec` push/pop order). -/
structure Journal where
  instructions : List InstructionJournal
  checkpoints : List Checkpoint
  checkpointInterval : Nat
  maxSize : Nat
  deriving DecidableEq, Repr

/-- `Journal::new`. -/
def Journal.new (checkpointInterval maxSize : Nat) : Journal :=
  ⟨[], [], checkpointInterval, maxSize⟩

/-- `Journal::record`: append; when the length exceeds `max_size`, drop
the oldest `max_size / 10` entries, drop checkpoints whose index falls
below the new zero, and shift surviving checkpoint indices down. -/
def Journal.record (j : Journal) (insn : InstructionJournal) : Journal :=
  let instrs := j.instructions ++ [insn]
  if j.maxSize < instrs.length then
    let trim := j.maxSize / 10
    { j with
      instructions := instrs.drop trim,
      checkpoints :=
        (j.checkpoints.filter (fun c => trim ≤ c.instructionIndex)).map
          (fun c => { c with instructionIndex := c.instructionIndex - trim }) }
  else { j with instructions := instrs }

/-- `Journal::pop`: remove and return the newest instruction journal. -/
def Journal.pop (j : Journal) : Option (InstructionJournal × Journal) :=
  match j.instructions.getLast? with
  | none => none
  | some insn => some (insn, { j with instructions := j.instructions.dropLast })

/-- `Journal::len`. -/
def Journal.len (j : Journal) : Nat := j.instructions.length

/-- `Journal::is_empty`. -/
def Journal.isEmpty (j : Journal) : Bool := j.instructions.isEmpty

/-- `Journal::should_checkpoint`. -/
def Journal.shouldCheckpoint (j : Journal) : Bool :=
  j.instructions.length % j.checkpointInterval == 0

/-- `Journal::add_checkpoint`. -/
def Journal.addCheckpoint (j : Journal) (c : Checkpoint) : Journal :=
  { j with checkpoints := j.checkpoints ++ [c] }

/-- Stack capacity (`vm/stack.rs MAX_STACK_SIZE`). -/
def MAX_STACK_SIZE : Nat := 1024

/-- The operand stack is a bounded LIFO of Words; modelled as a list
with the top of the stack at the head (Rust stores bottom-first in a
fixed array with `len`; `data[len-1]` is the head here). -/
def Stack.push (s : List Nat) (v : Nat) : Except VmError (List Nat) :=
  if MAX_STACK_SIZE ≤ s.length then .error (.stackOverflow MAX_STACK_SIZE)
  else .ok (v :: s)

/-- `Stack::pop`. -/
def Stack.pop (s : List Nat) : Except VmError (Nat × List Nat) :=
  match s with
  | [] => .error (.stackUnderflow 1 0)
  | v :: rest => .ok (v, rest)

/-- `Stack::peek`: read the value `depth` below the top. -/
def Stack.peek (s : List Nat) (depth : Nat) : Except VmError Nat :=
  if depth < s.length then .ok (s.getD depth 0)
  else .error (.stackUnderflow (depth + 1) s.length)

/-- `Stack::swap`: exchange the top with the element `depth` below it. -/
def Stack.swap (s : List Nat) (depth : Nat) : Except VmError (List Nat) :=
  if depth < s.length then
    .ok ((s.set 0 (s.getD depth 0)).set depth (s.getD 0 0))
  else .error (.stackUnderflow (depth + 1) s.length)

/-- Linear memory (`vm/memory.rs`): byte-addressable with a high-water
`size`. The lazily allocated 4 KiB pages only affect allocation, not
observable bytes, so the byte store is modelled as the write log
(newest first); an offset never written reads as zero, exactly as an
absent or untouched page does. -/
structure Memory where
  size : Nat
  writes : List (Nat × Nat)
  deriving DecidableEq, Repr

/-- `Memory::new`. -/
def Memory.new : Memory := ⟨0, []⟩

/-- `Memory::get_byte` (also `peek_byte`): last write at the offset, or
zero. -/
def Memory.getByte (m : Memory) (offset : Nat) : Nat :=
  match m.writes.find? (fun p => p.1 == offset) with
  | some p => p.2
  | none => 0

/-- `Memory::set_byte`. Does not touch `size` (matching the Rust code,
where only `ensure_size` moves the high-water mark). -/
def Memory.setByte (m : Memory) (offset v : Nat) : Memory :=
  { m with writes := (offset, v) :: m.writes }

/-- `Memory::ensure_size`: raise the high-water mark. -/
def Memory.ensureSize (m : Memory) (minSize : Nat) : Memory :=
  if minSize ≤ m.size then m else { m with size := minSize }

/-- `Memory::write_slice_internal`: write consecutive bytes. -/
def Memory.writeSliceInternal (m : Memory) (offset : Nat) (src : List Nat) : Memory :=
  src.enum.foldl (fun acc p => acc.setByte (offset + p.1) p.2) m

/-- `Memory::read_range`. -/
def Memory.readRange (m : Memory) (offset len : Nat) : List Nat :=
  (List.range len).map (fun i => m.getByte (offset + i))

/-- `Memory::load`: 32-byte big-endian word read; grows memory. -/
def Memory.load (m : Memory) (offset : Nat) : Nat × Memory :=
  let m1 := m.ensureSize (offset + 32)
  (fromBeBytes (m1.readRange offset 32), m1)

/-- `Memory::load_byte`: single byte read; grows memory. -/
def Memory.loadByte (m : Memory) (offset : Nat) : Nat × Memory :=
  let m1 := m.ensureSize (offset + 1)
  (m1.getByte offset, m1)

/-- `Memory::store`: write a 32-byte big-endian word, returning the
displaced bytes. -/
def Memory.store (m : Memory) (offset value : Nat) : List Nat × Memory :=
  let m1 := m.ensureSize (offset + 32)
  let old := m1.readRange offset 32
  (old, m1.writeSliceInternal offset (toBeBytes32 value))

/-- `Memory::store_byte`: write one byte, returning the displaced
byte. -/
def Memory.storeByte (m : Memory) (offset v : Nat) : Nat × Memory :=
  let m1 := m.ensureSize (offset + 1)
  (m1.getByte offset, m1.setByte offset v)

/-- `Memory::restore_bytes` (rewind path): raw write, no growth. -/
def Memory.restoreBytes (m : Memory) (offset : Nat) (data : List Nat) : Memory :=
  if data.isEmpty then m else m.writeSliceInternal offset data

/-- `Memory::snapshot`: contiguous copy up to `size`. -/
def Memory.snapshot (m : Memory) : List Nat :=
  (List.range m.size).map m.getByte

/-- Key/value storage (`vm/storage.rs`): current map plus the
original-value map, both as association lists (newest binding first,
observationally the Rust `HashMap`s). -/
structure Storage where
  data : List (Nat × Nat)
  original : List (Nat × Nat)
  deriving DecidableEq, Repr

/-- `Storage::new`. -/
def Storage.new : Storage := ⟨[], []⟩

/-- `Storage::get`: current value, ZERO if absent. -/
def Storage.get (s : Storage) (key : Nat) : Nat :=
  match s.data.find? (fun p => p.1 == key) with
  | some p => p.2
  | none => 0

/-- `Storage::insert`: write, returning the displaced value (ZERO if
absent); records the displaced value in `original` on the first write
of the key (`entry(key).or_insert(old)`). -/
def Storage.insert (s : Storage) (key value : Nat) : Nat × Storage :=
  let old := s.get key
  let original' :=
    if (s.original.find? (fun p => p.1 == key)).isSome then s.original
    else (key, old) :: s.original
  (old, { data := (key, value) :: s.data, original := original' })

/-- `Storage::get_original`. -/
def Storage.getOriginal (s : Storage) (key : Nat) : Nat :=
  match s.original.find? (fun p => p.1 == key) with
  | some p => p.2
  | none => 0

/-- Block context (`core/types.rs BlockContext`); addresses are 20-byte
lists. -/
structure BlockContext where
  number : Nat
  timestamp : Nat
  gasLimit : Nat
  coinbase : List Nat
  difficulty : Nat
  chainId : Nat
  baseFee : Nat
  deriving DecidableEq, Repr

/-- `BlockContext::default`. -/
def BlockContext.default : BlockContext :=
  ⟨0, 0, 30000000, List.replicate 20 0, 0, 1, 0⟩

/-- Complete VM state (`vm/state.rs VmState`). -/
structure VmState where
  stack : List Nat
  memory : Memory
  storage : Storage
  pc : Nat
  gas : Nat
  callDepth : Nat
  returnData : List Nat
  deriving DecidableEq, Repr

/-- `VmState::new`. -/
def VmState.new (gas : Nat) : VmState :=
  ⟨[], Memory.new, Storage.new, 0, gas, 0, []⟩

/-- The virtual machine (`vm/state.rs Vm`). -/
structure Vm where
  state : VmState
  bytecode : List Nat
  journal : Journal
  context : BlockContext
  jumpDests : List Bool
  callStack : List CallFrame
  deriving DecidableEq, Repr

/-- `Vm::new`: zero state, journal with checkpoint interval 1000 and
soft cap 10,000,000, precomputed jump-dest bitmap. -/
def Vm.new (bytecode : List Nat) (gas : Nat) (context : BlockContext) : Vm :=
  { state := VmState.new gas
    bytecode := bytecode
    journal := Journal.new 1000 10000000
    context := context
    jumpDests := analyzeJumpDests bytecode
    callStack := [] }

/-- `Vm::is_valid_jump`: bitmap lookup, `false` out of range. -/
def Vm.isValidJump (vm : Vm) (dest : Nat) : Bool :=
  vm.jumpDests.getD dest false

/-- `Vm::compute_state_hash`: the hashed tuple (pc, gas, stack limbs
bottom-to-top, memory size); see `StateHashInput`. -/
def Vm.computeStateHash (vm : Vm) : StateHashInput :=
  ⟨vm.state.pc, vm.state.gas, vm.state.stack.reverse, vm.state.memory.size⟩

/-- `Vm::create_state_snapshot` (the stack is recorded bottom-first, as
`Stack::to_vec` does). -/
def Vm.createStateSnapshot (vm : Vm) : StateSnapshot :=
  { stack := vm.state.stack.reverse
    memory := vm.state.memory.snapshot
    storage := vm.state.storage.data
    pc := vm.state.pc
    gas := vm.state.gas
    callDepth := vm.state.callDepth
    returnData := vm.state.returnData }

/-- Result of one `execute_opcode` dispatch: outcome, the state after
any partial mutation (the Rust code mutates `self.state` in place, so
mutations made before an error persist), and the buffered
instruction-journal entries. -/
abbrev ExecResult := Except VmError (Option HaltReason) × VmState × List JournalEntry

/-- Shared shape of the binary-operator arms (Add/Sub/Mul/Div/Eq/Lt/Gt
/And/Or/Xor): pop `a`, pop `b` (journaling each pop), push `f a b`
(journaling the push). -/
def execBinStackOp (f : Nat → Nat → Nat) (s : VmState) (j : List JournalEntry) :
    ExecResult :=
  match Stack.pop s.stack with
  | .error e => (.error e, s, j)
  | .ok (a, st1) =>
    let s1 := { s with stack := st1 }
    let j1 := j ++ [.stackPop a]
    match Stack.pop s1.stack with
    | .error e => (.error e, s1, j1)
    | .ok (b, st2) =>
      let s2 := { s1 with stack := st2 }
      let j2 := j1 ++ [.stackPop b]
      let result := f a b
      match Stack.push s2.stack result with
      | .error e => (.error e, s2, j2)
      | .ok st3 => (.ok none, { s2 with stack := st3 }, j2 ++ [.stackPush result])

/-- Shared shape of the unary-operator arms (IsZero/Not): pop `a`,
push `f a`. -/
def execUnStackOp (f : Nat → Nat) (s : VmState) (j : List JournalEntry) :
    ExecResult :=
  match Stack.pop s.stack with
  | .error e => (.error e, s, j)
  | .ok (a, st1) =>
    let s1 := { s with stack := st1 }
    let j1 := j ++ [.stackPop a]
    let result := f a
    match Stack.push s1.stack result with
    | .error e => (.error e, s1, j1)
    | .ok st2 => (.ok none, { s1 with stack := st2 }, j1 ++ [.stackPush result])

/-- Shared shape of the value-pushing arms (PC/MSIZE/GAS): push the
named quantity. -/
def execPushValue (v : Nat) (s : VmState) (j : List JournalEntry) : ExecResult :=
  match Stack.push s.stack v with
  | .error e => (.error e, s, j)
  | .ok st => (.ok none, { s with stack := st }, j ++ [.stackPush v])

/-- `Vm::execute_push`: read `size` immediate bytes starting at pc+1
into the low end of a zeroed 32-byte buffer (bytes past the end of the
bytecode are left zero), big-endian-decode, push, journal one push. -/
def executePush (bytecode : List Nat) (op : Nat) (s : VmState)
    (j : List JournalEntry) : ExecResult :=
  let size := immediateSize op
  let start := s.pc + 1
  let bytes := List.replicate (32 - size) 0 ++
    (List.range size).map
      (fun i => if start + i < bytecode.length then bytecode.getD (start + i) 0 else 0)
  let value := fromBeBytes bytes
  match Stack.push s.stack value with
  | .error e => (.error e, s, j)
  | .ok st => (.ok none, { s with stack := st }, j ++ [.stackPush value])

/-- `Vm::execute_dup`: peek depth `n-1`, push a copy. -/
def executeDup (op : Nat) (s : VmState) (j : List JournalEntry) : ExecResult :=
  let depth := op - 0x80
  match Stack.peek s.stack depth with
  | .error e => (.error e, s, j)
  | .ok value =>
    match Stack.push s.stack value with
    | .error e => (.error e, s, j)
    | .ok st => (.ok none, { s with stack := st }, j ++ [.stackPush value])

/-- `Vm::execute_swap`: journal pop-top, pop-other, swap in place, then
journal push-top, push-other. -/
def executeSwap (op : Nat) (s : VmState) (j : List JournalEntry) : ExecResult :=
  let depth := op - 0x90 + 1
  match Stack.peek s.stack 0 with
  | .error e => (.error e, s, j)
  | .ok top =>
    match Stack.peek s.stack depth with
    | .error e => (.error e, s, j)
    | .ok other =>
      let j1 := j ++ [.stackPop top, .stackPop other]
      match Stack.swap s.stack depth with
      | .error e => (.error e, s, j1)
      | .ok st => (.ok none, { s with stack := st },
          j1 ++ [.stackPush top, .stackPush other])

/-- MLOAD arm: pop offset, word read (journaling expansion if the size
grew), push. -/
def executeMLoad (s : VmState) (j : List JournalEntry) : ExecResult :=
  match Stack.pop s.stack with
  | .error e => (.error e, s, j)
  | .ok (offset, st1) =>
    let s1 := { s with stack := st1 }
    let j1 := j ++ [.stackPop offset]
    let oldSize := s1.memory.size
    let lm := Memory.load s1.memory (asUsize offset)
    let j2 := if oldSize < lm.2.size
      then j1 ++ [.memoryExpansion oldSize lm.2.size] else j1
    let s2 := { s1 with memory := lm.2 }
    match Stack.push s2.stack lm.1 with
    | .error e => (.error e, s2, j2)
    | .ok st2 => (.ok none, { s2 with stack := st2 }, j2 ++ [.stackPush lm.1])

/-- MSTORE arm: pop offset then value, write the 32 big-endian bytes
(journaling expansion if the size grew and the displaced bytes). -/
def executeMStore (s : VmState) (j : List JournalEntry) : ExecResult :=
  match Stack.pop s.stack with
  | .error e => (.error e, s, j)
  | .ok (offset, st1) =>
    let s1 := { s with stack := st1 }
    let j1 := j ++ [.stackPop offset]
    match Stack.pop s1.stack with
    | .error e => (.error e, s1, j1)
    | .ok (value, st2) =>
      let s2 := { s1 with stack := st2 }
      let j2 := j1 ++ [.stackPop value]
      let oldSize := s2.memory.size
      let sm := Memory.store s2.memory (asUsize offset) value
      let j3 := if oldSize < sm.2.size
        then j2 ++ [.memoryExpansion oldSize sm.2.size] else j2
      (.ok none, { s2 with memory := sm.2 },
        j3 ++ [.memoryWrite (asUsize offset) sm.1 (toBeBytes32 value)])

/-- MSTORE8 arm: pop offset then value, write the low byte, journal the
displaced byte. -/
def executeMStore8 (s : VmState) (j : List JournalEntry) : ExecResult :=
  match Stack.pop s.stack with
  | .error e => (.error e, s, j)
  | .ok (offset, st1) =>
    let s1 := { s with stack := st1 }
    let j1 := j ++ [.stackPop offset]
    match Stack.pop s1.stack with
    | .error e => (.error e, s1, j1)
    | .ok (value, st2) =>
      let s2 := { s1 with stack := st2 }
      let j2 := j1 ++ [.stackPop value]
      let byte := value % 256
      let sb := Memory.storeByte s2.memory (asUsize offset) byte
      (.ok none, { s2 with memory := sb.2 },
        j2 ++ [.memoryWrite (asUsize offset) [sb.1] [byte]])

/-- SLOAD arm: pop key, push the stored value (no storage mutation, no
storage journal entry). -/
def executeSLoad (s : VmState) (j : List JournalEntry) : ExecResult :=
  match Stack.pop s.stack with
  | .error e => (.error e, s, j)
  | .ok (key, st1) =>
    let s1 := { s with stack := st1 }
    let j1 := j ++ [.stackPop key]
    let value := s1.storage.get key
    match Stack.push s1.stack value with
    | .error e => (.error e, s1, j1)
    | .ok st2 => (.ok none, { s1 with stack := st2 }, j1 ++ [.stackPush value])

/-- SSTORE arm: pop key then value, write, journal the storage write. -/
def executeSStore (s : VmState) (j : List JournalEntry) : ExecResult :=
  match Stack.pop s.stack with
  | .error e => (.error e, s, j)
  | .ok (key, st1) =>
    let s1 := { s with stack := st1 }
    let j1 := j ++ [.stackPop key]
    match Stack.pop s1.stack with
    | .error e => (.error e, s1, j1)
    | .ok (value, st2) =>
      let s2 := { s1 with stack := st2 }
      let j2 := j1 ++ [.stackPop value]
      let iv := s2.storage.insert key value
      (.ok none, { s2 with storage := iv.2 },
        j2 ++ [.storageWrite key iv.1 value])

/-- JUMP arm: pop dest; invalid target is an error *after* the pop has
mutated the stack; valid target journals the pc change and sets pc. -/
def executeJump (jumpDests : List Bool) (s : VmState) (j : List JournalEntry) :
    ExecResult :=
  match Stack.pop s.stack with
  | .error e => (.error e, s, j)
  | .ok (dest, st1) =>
    let s1 := { s with stack := st1 }
    let j1 := j ++ [.stackPop dest]
    let destUsize := asUsize dest
    if jumpDests.getD destUsize false then
      (.ok none, { s1 with pc := destUsize },
        j1 ++ [.pcChange s1.pc destUsize])
    else (.error (.invalidJump destUsize), s1, j1)

/-- JUMPI arm: pop dest then cond; zero cond skips the validity check
entirely; nonzero cond behaves like JUMP. -/
def executeJumpI (jumpDests : List Bool) (s : VmState) (j : List JournalEntry) :
    ExecResult :=
  match Stack.pop s.stack with
  | .error e => (.error e, s, j)
  | .ok (dest, st1) =>
    let s1 := { s with stack := st1 }
    let j1 := j ++ [.stackPop dest]
    match Stack.pop s1.stack with
    | .error e => (.error e, s1, j1)
    | .ok (cond, st2) =>
      let s2 := { s1 with stack := st2 }
      let j2 := j1 ++ [.stackPop cond]
      if isZeroU cond then (.ok none, s2, j2)
      else
        let destUsize := asUsize dest
        if jumpDests.getD destUsize false then
          (.ok none, { s2 with pc := destUsize },
            j2 ++ [.pcChange s2.pc destUsize])
        else (.error (.invalidJump destUsize), s2, j2)

/-- RETURN/REVERT arms: pop offset then size, copy that memory slice
(byte reads grow memory) into the halt's return data. -/
def executeReturnLike (mk : List Nat → HaltReason) (s : VmState)
    (j : List JournalEntry) : ExecResult :=
  match Stack.pop s.stack with
  | .error e => (.error e, s, j)
  | .ok (offset, st1) =>
    let s1 := { s with stack := st1 }
    let j1 := j ++ [.stackPop offset]
    match Stack.pop s1.stack with
    | .error e => (.error e, s1, j1)
    | .ok (size, st2) =>
      let s2 := { s1 with stack := st2 }
      let j2 := j1 ++ [.stackPop size]
      let dm := (List.range (asUsize size)).foldl
        (fun (acc : List Nat × Memory) i =>
          let bm := Memory.loadByte acc.2 (asUsize offset + i)
          (acc.1 ++ [bm.1], bm.2))
        ([], s2.memory)
      (.ok (some (mk dm.1)), { s2 with memory := dm.2 }, j2)

/-- `Vm::execute_opcode`: dispatch on the opcode byte; PUSH/DUP/SWAP
ranges first, then the per-opcode arms, with unimplemented opcodes as
no-ops. -/
def executeOpcode (bytecode : List Nat) (jumpDests : List Bool) (op : Nat)
    (s : VmState) (j : List JournalEntry) : ExecResult :=
  if isPushOp op then executePush bytecode op s j
  else if isDupOp op then executeDup op s j
  else if isSwapOp op then executeSwap op s j
  else match op with
  | 0x00 => (.ok (some .stop), s, j)
  | 0x01 => execBinStackOp wrappingAdd s j
  | 0x03 => execBinStackOp wrappingSub s j
  | 0x02 => execBinStackOp (fun a b => asU64 a * asU64 b % U64_MOD) s j
  | 0x04 => execBinStackOp
      (fun a b => if isZeroU b then 0 else asU64 a / asU64 b) s j
  | 0x15 => execUnStackOp (fun a => if isZeroU a then 1 else 0) s j
  | 0x14 => execBinStackOp
      (fun a b => if a % U256_MOD = b % U256_MOD then 1 else 0) s j
  | 0x10 => execBinStackOp (fun a b => if asU64 a < asU64 b then 1 else 0) s j
  | 0x11 => execBinStackOp (fun a b => if asU64 b < asU64 a then 1 else 0) s j
  | 0x16 => execBinStackOp (limbwise Nat.land) s j
  | 0x17 => execBinStackOp (limbwise Nat.lor) s j
  | 0x18 => execBinStackOp (limbwise Nat.xor) s j
  | 0x19 => execUnStackOp notLimbs s j
  | 0x50 =>
    match Stack.pop s.stack with
    | .error e => (.error e, s, j)
    | .ok (a, st) => (.ok none, { s with stack := st }, j ++ [.stackPop a])
  | 0x51 => executeMLoad s j
  | 0x52 => executeMStore s j
  | 0x53 => executeMStore8 s j
  | 0x54 => executeSLoad s j
  | 0x55 => executeSStore s j
  | 0x56 => executeJump jumpDests s j
  | 0x57 => executeJumpI jumpDests s j
  | 0x58 => execPushValue s.pc s j
  | 0x59 => execPushValue s.memory.size s j
  | 0x5A => execPushValue s.gas s j
  | 0x5B => (.ok none, s, j)
  | 0xF3 => executeReturnLike HaltReason.ret s j
  | 0xFD => executeReturnLike HaltReason.revert s j
  | 0xFE => (.ok (some (.invalidOpcode op)), s, j)
  | _ => (.ok none, s, j)

/-- State after the bookkeeping tail of `Vm::step_forward`: deduct the
base gas, and advance pc by `1 + immediate_size` unless the opcode
already moved it (a taken JUMP/JUMPI leaves `s1.pc` different from the
pc at instruction start). -/
def stepFinishState (vm : Vm) (opcode : Nat) (s1 : VmState) : VmState :=
  if s1.pc = vm.state.pc then
    { s1 with gas := s1.gas - baseGas opcode,
              pc := vm.state.pc + 1 + immediateSize opcode }
  else { s1 with gas := s1.gas - baseGas opcode }

/-- Instruction-journal entries after the bookkeeping tail: the
dispatch's entries, then the `GasChange`, then the `PcChange` when the
executor advanced the pc itself. -/
def stepFinishEntries (vm : Vm) (opcode : Nat) (s1 : VmState)
    (j1 : List JournalEntry) : List JournalEntry :=
  let j2 := j1 ++ [.gasChange s1.gas (s1.gas - baseGas opcode)]
  if s1.pc = vm.state.pc then
    j2 ++ [.pcChange vm.state.pc (vm.state.pc + 1 + immediateSize opcode)]
  else j2

/-- The completed instruction journal recorded by `Vm::step_forward`:
header (pc-before, opcode byte, gas-before, gas-after, state-hash
after the instruction) plus the delta entries. -/
def stepFinishInsn (vm : Vm) (opcodeByte opcode : Nat) (s1 : VmState)
    (j1 : List JournalEntry) : InstructionJournal :=
  { pc := vm.state.pc, opcode := opcodeByte,
    entries := stepFinishEntries vm opcode s1 j1,
    stateHash := some (Vm.computeStateHash
      { vm with state := stepFinishState vm opcode s1 }),
    gasBefore := vm.state.gas, gasAfter := s1.gas - baseGas opcode }

/-- Bookkeeping tail of `Vm::step_forward` after a successful dispatch
(lines 51-75 of `interpreter.rs`): deduct base gas and journal it,
advance pc (unless the opcode moved it) and journal that, write the
state hash into the header, record the instruction journal, checkpoint
at the interval, and classify the step result. -/
def stepFinish (vm : Vm) (opcodeByte opcode : Nat) (halt : Option HaltReason)
    (s1 : VmState) (j1 : List JournalEntry) : Except VmError StepResult × Vm :=
  let vm1 := { vm with
    state := stepFinishState vm opcode s1,
    journal := vm.journal.record (stepFinishInsn vm opcodeByte opcode s1 j1) }
  let vm2 :=
    if vm1.journal.shouldCheckpoint then
      let cp := Checkpoint.mk vm1.journal.len vm1.createStateSnapshot
      { vm1 with journal := vm1.journal.addCheckpoint cp }
    else vm1
  match halt with
  | some reason => (.ok (.halted reason), vm2)
  | none => (.ok (.executed opcode (baseGas opcode)), vm2)

/-- `Vm::step_forward`: one instruction, journaling all state changes.
Checks are ordered: bytecode exhaustion (halt, no journal), opcode
recognition, stack arity, gas availability, then the dispatch; on a
dispatch error the buffered instruction journal is discarded but the
state mutations made by the dispatch persist. -/
def stepForward (vm : Vm) : Except VmError StepResult × Vm :=
  if vm.bytecode.length ≤ vm.state.pc then (.ok (.halted .stop), vm)
  else
    let opcodeByte := vm.bytecode.getD vm.state.pc 0
    match fromU8 opcodeByte with
    | none => (.error (.invalidOpcode opcodeByte), vm)
    | some opcode =>
      let stackLen := vm.state.stack.length
      let required := stackInputs opcode
      if stackLen < required then
        (.error (.stackUnderflow required stackLen), vm)
      else
        let gasCost := baseGas opcode
        if vm.state.gas < gasCost then
          (.error (.outOfGas gasCost vm.state.gas), vm)
        else
          match executeOpcode vm.bytecode vm.jumpDests opcode vm.state [] with
          | (.error e, s', _) => (.error e, { vm with state := s' })
          | (.ok halt, s1, j1) => stepFinish vm opcodeByte opcode halt s1 j1

/-- `apply_inverse` (`executor/reverse.rs`): undo a single journal
entry. -/
def applyInverse (vm : Vm) (entry : JournalEntry) : Except VmError Unit × Vm :=
  match entry with
  | .stackPush _ =>
    match Stack.pop vm.state.stack with
    | .error e => (.error e, vm)
    | .ok (_, st) => (.ok (), { vm with state := { vm.state with stack := st } })
  | .stackPop value =>
    match Stack.push vm.state.stack value with
    | .error e => (.error e, vm)
    | .ok st => (.ok (), { vm with state := { vm.state with stack := st } })
  | .memoryWrite offset oldData _ =>
    (.ok (), { vm with state :=
      { vm.state with memory := vm.state.memory.restoreBytes offset oldData } })
  | .storageWrite key oldValue _ =>
    (.ok (), { vm with state :=
      { vm.state with storage := (vm.state.storage.insert key oldValue).2 } })
  | .pcChange oldPc _ =>
    (.ok (), { vm with state := { vm.state with pc := oldPc } })
  | .gasChange oldGas _ =>
    (.ok (), { vm with state := { vm.state with gas := oldGas } })
  | .callEnter _ =>
    (.ok (), { vm with
      callStack := vm.callStack.dropLast,
      state := { vm.state with callDepth := vm.state.callDepth - 1 } })
  | .callExit _ _ =>
    (.ok (), { vm with state :=
      { vm.state with callDepth := vm.state.callDepth + 1 } })
  | .returnDataSet oldData _ =>
    (.ok (), { vm with state := { vm.state with returnData := oldData } })
  | .memoryExpansion _ _ => (.ok (), vm)

/-- The `step_backward` loop body: apply inverses left to right (the
caller passes the entries already reversed); an error stops the loop
with the partial mutations kept. -/
def applyInverses (entries : List JournalEntry) (vm : Vm) :
    Except VmError Unit × Vm :=
  match entries with
  | [] => (.ok (), vm)
  | e :: rest =>
    match applyInverse vm e with
    | (.error err, vm') => (.error err, vm')
    | (.ok _, vm') => applyInverses rest vm'

/-- `Vm::step_backward`: pop the newest instruction journal (error
`JournalExhausted` if none) and apply the inverse of each delta in
reverse order of emission. -/
def stepBackward (vm : Vm) : Except VmError StepResult × Vm :=
  match vm.journal.pop with
  | none => (.error .journalExhausted, vm)
  | some ij =>
    let vm1 := { vm with journal := ij.2 }
    match applyInverses ij.1.entries.reverse vm1 with
    | (.error e, vm2) => (.error e, vm2)
    | (.ok _, vm2) => (.ok (.rewound 1), vm2)

/-- `Vm::run` loop body. Every non-halting step consumes at least one
unit of gas (the zero-cost opcodes all halt), so `gas + 1` steps of
fuel always suffice; `none` marks the unreachable fuel exhaustion. -/
def runAux : Nat → Nat → Vm → Option (Except VmError ExecutionResult) × Vm
  | 0, _, vm => (none, vm)
  | fuel + 1, initialGas, vm =>
    match stepForward vm with
    | (.error e, vm') => (some (.error e), vm')
    | (.ok (.halted reason), vm') =>
      let gasUsed := initialGas - vm'.state.gas
      (some (.ok (match reason with
        | .stop => .success [] gasUsed
        | .ret data => .success data gasUsed
        | .revert data => .revert data gasUsed
        | r => .halt r gasUsed)), vm')
    | (.ok _, vm') => runAux fuel initialGas vm'

/-- `Vm::run`: step forward until halt, classifying the halt reason
into the terminal execution result. -/
def Vm.run (vm : Vm) : Option (Except VmError ExecutionResult) × Vm :=
  runAux (vm.state.gas + 1) vm.state.gas vm

/-- Spec-side value of a PUSHn: the big-endian decoding, zero-extended
to 256 bits, of the `n` bytes at positions pc+1 .. pc+n, where a
position at or past the end of the bytecode contributes a zero byte. -/
def pushSpecValue (bytecode : List Nat) (pc n : Nat) : Nat :=
  fromBeBytes ((List.range n).map (fun i => bytecode.getD (pc + 1 + i) 0))

/-- Recognizer for `StackPush` journal entries. -/
def JournalEntry.isStackPush : JournalEntry → Bool
  | .stackPush _ => true
  | _ => false

end TTBD

deriving instance DecidableEq for Except

namespace TTBD

/-- A byte in the PUSH range is recognized by `from_u8` as itself. -/
theorem fromU8_push {b : Nat} (h1 : 0x60 ≤ b) (h2 : b ≤ 0x7F) :
    fromU8 b = some b := by
  interval_cases b <;> rfl

/-- A byte in the PUSH range satisfies `is_push`. -/
theorem isPushOp_true {b : Nat} (h1 : 0x60 ≤ b) (h2 : b ≤ 0x7F) :
    isPushOp b = true := by
  simp only [isPushOp, Bool.and_eq_true, decide_eq_true_eq]
  omega

/-- PUSH opcodes have zero stack inputs. -/
theorem stackInputs_push {b : Nat} (h1 : 0x60 ≤ b) (h2 : b ≤ 0x7F) :
    stackInputs b = 0 := by
  unfold stackInputs
  rw [if_pos (isPushOp_true h1 h2)]

/-- PUSH opcodes cost 3 gas. -/
theorem baseGas_push {b : Nat} (h1 : 0x60 ≤ b) (h2 : b ≤ 0x7F) :
    baseGas b = 3 := by
  unfold baseGas
  rw [if_pos (by simp [isPushOp_true h1 h2])]

/-- PUSH opcodes carry `b - 0x5F` immediate bytes. -/
theorem immediateSize_push {b : Nat} (h1 : 0x60 ≤ b) (h2 : b ≤ 0x7F) :
    immediateSize b = b - 0x5F := by
  unfold immediateSize
  rw [if_pos (isPushOp_true h1 h2)]
  omega

/-- A push on a non-full stack succeeds. -/
theorem stackPush_ok (l : List Nat) (v : Nat) (h : l.length < MAX_STACK_SIZE) :
    Stack.push l v = .ok (v :: l) := by
  unfold Stack.push
  rw [if_neg (Nat.not_le.mpr h)]

/-- `Stack::push` only ever fails with `StackOverflow`. -/
theorem stackPush_error (l : List Nat) (v : Nat) (e : VmError)
    (h : Stack.push l v = .error e) : e = .stackOverflow MAX_STACK_SIZE := by
  unfold Stack.push at h
  split at h
  · injection h with h1; exact h1.symm
  · exact absurd h (by simp)

/-- `Stack::peek` only ever fails with `StackUnderflow`. -/
theorem stackPeek_error (l : List Nat) (d : Nat) (e : VmError)
    (h : Stack.peek l d = .error e) : e = .stackUnderflow (d + 1) l.length := by
  unfold Stack.peek at h
  split at h
  · exact absurd h (by simp)
  · injection h with h1; exact h1.symm

/-- `Stack::swap` only ever fails with `StackUnderflow`. -/
theorem stackSwap_error (l : List Nat) (d : Nat) (e : VmError)
    (h : Stack.swap l d = .error e) : e = .stackUnderflow (d + 1) l.length := by
  unfold Stack.swap at h
  split at h
  · exact absurd h (by simp)
  · injection h with h1; exact h1.symm

/-- A list of length at least 1 is a cons. -/
theorem stack_shape_one (l : List Nat) (h : 1 ≤ l.length) :
    ∃ a rest, l = a :: rest := by
  cases l with
  | nil => simp at h
  | cons a rest => exact ⟨a, rest, rfl⟩

/-- A list of length at least 2 starts with two conses. -/
theorem stack_shape_two (l : List Nat) (h : 2 ≤ l.length) :
    ∃ a b rest, l = a :: b :: rest := by
  cases l with
  | nil => simp at h
  | cons a t =>
    cases t with
    | nil => simp at h
    | cons b rest => exact ⟨a, b, rest, rfl⟩

/-- Evaluation of a binary-operator arm on a stack with two operands
and room for the result. -/
theorem execBinStackOp_eq (f : Nat → Nat → Nat) (s : VmState)
    (j : List JournalEntry) (a b : Nat) (rest : List Nat)
    (hstk : s.stack = a :: b :: rest) (hroom : rest.length < MAX_STACK_SIZE) :
    execBinStackOp f s j = (.ok none, { s with stack := f a b :: rest },
      ((j ++ [.stackPop a]) ++ [.stackPop b]) ++ [.stackPush (f a b)]) := by
  have hp : Stack.push rest (f a b) = .ok (f a b :: rest) := stackPush_ok _ _ hroom
  simp only [execBinStackOp, hstk, Stack.pop, hp]

/-- Evaluation of a unary-operator arm. -/
theorem execUnStackOp_eq (f : Nat → Nat) (s : VmState) (j : List JournalEntry)
    (a : Nat) (rest : List Nat) (hstk : s.stack = a :: rest)
    (hroom : rest.length < MAX_STACK_SIZE) :
    execUnStackOp f s j = (.ok none, { s with stack := f a :: rest },
      (j ++ [.stackPop a]) ++ [.stackPush (f a)]) := by
  have hp : Stack.push rest (f a) = .ok (f a :: rest) := stackPush_ok _ _ hroom
  simp only [execUnStackOp, hstk, Stack.pop, hp]

/-- MSTORE with two operands never fails. -/
theorem executeMStore_fst (s : VmState) (j : List JournalEntry)
    (a b : Nat) (rest : List Nat) (hstk : s.stack = a :: b :: rest) :
    (executeMStore s j).1 = .ok none := by
  simp only [executeMStore, hstk, Stack.pop]

/-- MSTORE8 with two operands never fails. -/
theorem executeMStore8_fst (s : VmState) (j : List JournalEntry)
    (a b : Nat) (rest : List Nat) (hstk : s.stack = a :: b :: rest) :
    (executeMStore8 s j).1 = .ok none := by
  simp only [executeMStore8, hstk, Stack.pop]

/-- SSTORE with two operands never fails. -/
theorem executeSStore_fst (s : VmState) (j : List JournalEntry)
    (a b : Nat) (rest : List Nat) (hstk : s.stack = a :: b :: rest) :
    (executeSStore s j).1 = .ok none := by
  simp only [executeSStore, hstk, Stack.pop]

/-- RETURN/REVERT with two operands always halt. -/
theorem executeReturnLike_fst (mk : List Nat → HaltReason) (s : VmState)
    (j : List JournalEntry) (a b : Nat) (rest : List Nat)
    (hstk : s.stack = a :: b :: rest) :
    ∃ r, (executeReturnLike mk s j).1 = .ok (some r) := by
  simp only [executeReturnLike, hstk, Stack.pop]
  exact ⟨_, rfl⟩

/-- MLOAD with an operand and room for the result never fails. -/
theorem executeMLoad_fst (s : VmState) (j : List JournalEntry)
    (a : Nat) (rest : List Nat) (hstk : s.stack = a :: rest)
    (hroom : rest.length < MAX_STACK_SIZE) :
    (executeMLoad s j).1 = .ok none := by
  have hp := stackPush_ok rest
    ((s.memory.ensureSize (asUsize a + 32)).readRange (asUsize a) 32 |> fromBeBytes)
    hroom
  simp only [executeMLoad, hstk, Stack.pop, Memory.load]
  rw [hp]

/-- SLOAD with an operand and room for the result never fails. -/
theorem executeSLoad_fst (s : VmState) (j : List JournalEntry)
    (a : Nat) (rest : List Nat) (hstk : s.stack = a :: rest)
    (hroom : rest.length < MAX_STACK_SIZE) :
    (executeSLoad s j).1 = .ok none := by
  have hp := stackPush_ok rest (({ s with stack := rest } : VmState).storage.get a)
    hroom
  simp only [executeSLoad, hstk, Stack.pop]
  rw [hp]

/-- A failing PC/MSIZE/GAS arm leaves the state untouched and reports
`StackOverflow`. -/
theorem execPushValue_error (v : Nat) (s : VmState) (j : List JournalEntry)
    (e : VmError) (s' : VmState) (j' : List JournalEntry)
    (h : execPushValue v s j = (.error e, s', j')) :
    s' = s ∧ e = .stackOverflow MAX_STACK_SIZE := by
  unfold execPushValue at h
  split at h
  next heq =>
    simp only [Prod.mk.injEq, Except.error.injEq] at h
    exact ⟨h.2.1.symm, h.1 ▸ stackPush_error _ _ _ heq⟩
  next heq => exact absurd h (by simp)

/-- A failing PUSH arm leaves the state untouched and reports
`StackOverflow`. -/
theorem executePush_error (bytecode : List Nat) (op : Nat) (s : VmState)
    (j : List JournalEntry) (e : VmError) (s' : VmState) (j' : List JournalEntry)
    (h : executePush bytecode op s j = (.error e, s', j')) :
    s' = s ∧ e = .stackOverflow MAX_STACK_SIZE := by
  simp only [executePush] at h
  split at h
  next heq =>
    simp only [Prod.mk.injEq, Except.error.injEq] at h
    exact ⟨h.2.1.symm, h.1 ▸ stackPush_error _ _ _ heq⟩
  next heq => exact absurd h (by simp)

/-- A failing DUP arm leaves the state untouched; the error is never
`InvalidJump`. -/
theorem executeDup_error (op : Nat) (s : VmState) (j : List JournalEntry)
    (e : VmError) (s' : VmState) (j' : List JournalEntry)
    (h : executeDup op s j = (.error e, s', j')) :
    s' = s ∧ ∀ d, e ≠ .invalidJump d := by
  simp only [executeDup] at h
  split at h
  next heq =>
    simp only [Prod.mk.injEq, Except.error.injEq] at h
    refine ⟨h.2.1.symm, ?_⟩
    rw [← h.1, stackPeek_error _ _ _ heq]
    intro d hd
    exact absurd hd (by simp)
  next heq =>
    split at h
    next heq2 =>
      simp only [Prod.mk.injEq, Except.error.injEq] at h
      refine ⟨h.2.1.symm, ?_⟩
      rw [← h.1, stackPush_error _ _ _ heq2]
      intro d hd
      exact absurd hd (by simp)
    next heq2 => exact absurd h (by simp)

/-- A failing SWAP arm leaves the state untouched; the error is never
`InvalidJump`. -/
theorem executeSwap_error (op : Nat) (s : VmState) (j : List JournalEntry)
    (e : VmError) (s' : VmState) (j' : List JournalEntry)
    (h : executeSwap op s j = (.error e, s', j')) :
    s' = s ∧ ∀ d, e ≠ .invalidJump d := by
  simp only [executeSwap] at h
  split at h
  next heq =>
    simp only [Prod.mk.injEq, Except.error.injEq] at h
    refine ⟨h.2.1.symm, ?_⟩
    rw [← h.1, stackPeek_error _ _ _ heq]
    intro d hd
    exact absurd hd (by simp)
  next heq =>
    split at h
    next heq2 =>
      simp only [Prod.mk.injEq, Except.error.injEq] at h
      refine ⟨h.2.1.symm, ?_⟩
      rw [← h.1, stackPeek_error _ _ _ heq2]
      intro d hd
      exact absurd hd (by simp)
    next heq2 =>
      split at h
      next heq3 =>
        simp only [Prod.mk.injEq, Except.error.injEq] at h
        refine ⟨h.2.1.symm, ?_⟩
        rw [← h.1, stackSwap_error _ _ _ heq3]
        intro d hd
        exact absurd hd (by simp)
      next heq3 => exact absurd h (by simp)

/-- A failing JUMP arm has popped its operand and reports
`InvalidJump` at the truncated destination. -/
theorem executeJump_error (jumpDests : List Bool) (s : VmState)
    (j : List JournalEntry) (e : VmError) (s' : VmState) (j' : List JournalEntry)
    (d : Nat) (rest : List Nat) (hstk : s.stack = d :: rest)
    (h : executeJump jumpDests s j = (.error e, s', j')) :
    e = .invalidJump (asUsize d) ∧ s' = { s with stack := rest } := by
  simp only [executeJump, hstk, Stack.pop] at h
  split at h
  · exact absurd h (by simp)
  · simp only [Prod.mk.injEq, Except.error.injEq] at h
    exact ⟨h.1.symm, h.2.1.symm⟩

/-- A failing JUMPI arm has popped both operands and reports
`InvalidJump` at the truncated destination. -/
theorem executeJumpI_error (jumpDests : List Bool) (s : VmState)
    (j : List JournalEntry) (e : VmError) (s' : VmState) (j' : List JournalEntry)
    (d c : Nat) (rest : List Nat) (hstk : s.stack = d :: c :: rest)
    (h : executeJumpI jumpDests s j = (.error e, s', j')) :
    e = .invalidJump (asUsize d) ∧ s' = { s with stack := rest } := by
  simp only [executeJumpI, hstk, Stack.pop] at h
  split at h
  · exact absurd h (by simp)
  · split at h
    · exact absurd h (by simp)
    · simp only [Prod.mk.injEq, Except.error.injEq] at h
      exact ⟨h.1.symm, h.2.1.symm⟩

set_option maxHeartbeats 2000000 in
/-- Characterization of every error exit of `execute_opcode` under the
stack-arity precondition `step_forward` has already established: the
non-stack state components are untouched; either the whole state is
untouched and the error is not `InvalidJump`, or the error is
`InvalidJump` and exactly the one or two popped operands are gone. -/
theorem executeOpcode_error_char (bytecode : List Nat) (jumpDests : List Bool)
    (op : Nat) (s : VmState) (j : List JournalEntry) (e : VmError) (s' : VmState)
    (j' : List JournalEntry)
    (harity : stackInputs op ≤ s.stack.length)
    (hcap : s.stack.length ≤ MAX_STACK_SIZE)
    (h : executeOpcode bytecode jumpDests op s j = (.error e, s', j')) :
    s'.pc = s.pc ∧ s'.gas = s.gas ∧ s'.memory = s.memory ∧ s'.storage = s.storage ∧
    s'.callDepth = s.callDepth ∧ s'.returnData = s.returnData ∧
    ((s' = s ∧ ∀ d, e ≠ .invalidJump d) ∨
      ((∃ d, e = .invalidJump d) ∧
        (s'.stack = s.stack.drop 1 ∨ s'.stack = s.stack.drop 2))) := by
  unfold executeOpcode at h
  split at h
  · obtain ⟨hs, he⟩ := executePush_error _ _ _ _ _ _ _ h
    subst hs
    exact ⟨rfl, rfl, rfl, rfl, rfl, rfl, Or.inl ⟨rfl, fun d hd => by simp [he] at hd⟩⟩
  · split at h
    · obtain ⟨hs, he⟩ := executeDup_error _ _ _ _ _ _ h
      subst hs
      exact ⟨rfl, rfl, rfl, rfl, rfl, rfl, Or.inl ⟨rfl, he⟩⟩
    · split at h
      · obtain ⟨hs, he⟩ := executeSwap_error _ _ _ _ _ _ h
        subst hs
        exact ⟨rfl, rfl, rfl, rfl, rfl, rfl, Or.inl ⟨rfl, he⟩⟩
      · split at h
        all_goals first
        | exact absurd h (by simp)
        | (obtain ⟨hs, he⟩ := execPushValue_error _ _ _ _ _ _ h
           subst hs
           exact ⟨rfl, rfl, rfl, rfl, rfl, rfl,
             Or.inl ⟨rfl, fun d hd => by simp [he] at hd⟩⟩)
        | (obtain ⟨d, rest, hstk⟩ := stack_shape_one s.stack (by exact harity)
           obtain ⟨he, hs⟩ := executeJump_error _ _ _ _ _ _ _ _ hstk h
           subst hs
           refine ⟨rfl, rfl, rfl, rfl, rfl, rfl, Or.inr ⟨⟨_, he⟩, Or.inl ?_⟩⟩
           rw [hstk]
           rfl)
        | (obtain ⟨d, c, rest, hstk⟩ := stack_shape_two s.stack (by exact harity)
           obtain ⟨he, hs⟩ := executeJumpI_error _ _ _ _ _ _ _ _ _ hstk h
           subst hs
           refine ⟨rfl, rfl, rfl, rfl, rfl, rfl, Or.inr ⟨⟨_, he⟩, Or.inr ?_⟩⟩
           rw [hstk]
           rfl)
        | (obtain ⟨a, rest, hstk⟩ := stack_shape_one s.stack (by exact harity)
           simp only [hstk, Stack.pop] at h
           exact absurd h (by simp))
        | (obtain ⟨a, b, rest, hstk⟩ := stack_shape_two s.stack (by exact harity)
           have hroom : rest.length < MAX_STACK_SIZE := by
             rw [hstk] at hcap
             simp only [List.length_cons] at hcap
             omega
           rw [execBinStackOp_eq _ _ _ _ _ _ hstk hroom] at h
           exact absurd h (by simp))
        | (obtain ⟨a, rest, hstk⟩ := stack_shape_one s.stack (by exact harity)
           have hroom : rest.length < MAX_STACK_SIZE := by
             rw [hstk] at hcap
             simp only [List.length_cons] at hcap
             omega
           rw [execUnStackOp_eq _ _ _ _ _ hstk hroom] at h
           exact absurd h (by simp))
        | (obtain ⟨a, rest, hstk⟩ := stack_shape_one s.stack (by exact harity)
           have hroom : rest.length < MAX_STACK_SIZE := by
             rw [hstk] at hcap
             simp only [List.length_cons] at hcap
             omega
           have h1 := congrArg Prod.fst h
           rw [executeMLoad_fst _ _ _ _ hstk hroom] at h1
           exact absurd h1 (by simp))
        | (obtain ⟨a, rest, hstk⟩ := stack_shape_one s.stack (by exact harity)
           have hroom : rest.length < MAX_STACK_SIZE := by
             rw [hstk] at hcap
             simp only [List.length_cons] at hcap
             omega
           have h1 := congrArg Prod.fst h
           rw [executeSLoad_fst _ _ _ _ hstk hroom] at h1
           exact absurd h1 (by simp))
        | (obtain ⟨a, b, rest, hstk⟩ := stack_shape_two s.stack (by exact harity)
           have h1 := congrArg Prod.fst h
           rw [executeMStore_fst _ _ _ _ _ hstk] at h1
           exact absurd h1 (by simp))
        | (obtain ⟨a, b, rest, hstk⟩ := stack_shape_two s.stack (by exact harity)
           have h1 := congrArg Prod.fst h
           rw [executeMStore8_fst _ _ _ _ _ hstk] at h1
           exact absurd h1 (by simp))
        | (obtain ⟨a, b, rest, hstk⟩ := stack_shape_two s.stack (by exact harity)
           have h1 := congrArg Prod.fst h
           rw [executeSStore_fst _ _ _ _ _ hstk] at h1
           exact absurd h1 (by simp))
        | (obtain ⟨a, b, rest, hstk⟩ := stack_shape_two s.stack (by exact harity)
           obtain ⟨r, hr⟩ := executeReturnLike_fst _ _ _ _ _ _ hstk
           have h1 := congrArg Prod.fst h
           rw [hr] at h1
           exact absurd h1 (by simp))

/-- The result of `stepFinish` is never an error. -/
theorem stepFinish_fst_isOk (vm : Vm) (ob op : Nat) (halt : Option HaltReason)
    (s1 : VmState) (j1 : List JournalEntry) :
    ∃ r, (stepFinish vm ob op halt s1 j1).1 = .ok r := by
  cases halt <;> exact ⟨_, rfl⟩

/-- The state after `stepFinish` is `stepFinishState` (the checkpoint
branch only touches the journal). -/
theorem stepFinish_snd_state (vm : Vm) (ob op : Nat) (halt : Option HaltReason)
    (s1 : VmState) (j1 : List JournalEntry) :
    (stepFinish vm ob op halt s1 j1).2.state = stepFinishState vm op s1 := by
  unfold stepFinish
  cases halt <;> dsimp only [] <;> split <;> rfl

/-- The instruction list after `stepFinish` is the recorded one (the
checkpoint branch only touches the checkpoint list). -/
theorem stepFinish_snd_instructions (vm : Vm) (ob op : Nat)
    (halt : Option HaltReason) (s1 : VmState) (j1 : List JournalEntry) :
    (stepFinish vm ob op halt s1 j1).2.journal.instructions =
      (vm.journal.record (stepFinishInsn vm ob op s1 j1)).instructions := by
  unfold stepFinish
  cases halt <;> dsimp only [] <;> split <;> rfl

/-- `step_forward` on a passing dispatch reduces to `stepFinish`. -/
theorem stepForward_ok_eq (vm : Vm) (op : Nat) (halt : Option HaltReason)
    (s1 : VmState) (j1 : List JournalEntry)
    (hpc : vm.state.pc < vm.bytecode.length)
    (hbyte : vm.bytecode.getD vm.state.pc 0 = op)
    (hdec : fromU8 op = some op)
    (harity : stackInputs op ≤ vm.state.stack.length)
    (hgas : baseGas op ≤ vm.state.gas)
    (hexec : executeOpcode vm.bytecode vm.jumpDests op vm.state [] =
      (.ok halt, s1, j1)) :
    stepForward vm = stepFinish vm op op halt s1 j1 := by
  rw [stepForward]
  simp only [hbyte, hdec, if_neg (Nat.not_le.mpr hpc),
    if_neg (Nat.not_lt.mpr harity), if_neg (Nat.not_lt.mpr hgas), hexec]

/-- `step_forward` on a failing dispatch surfaces the dispatch error
and keeps the partially mutated state. -/
theorem stepForward_error_eq (vm : Vm) (op : Nat) (e : VmError)
    (s' : VmState) (j' : List JournalEntry)
    (hpc : vm.state.pc < vm.bytecode.length)
    (hbyte : vm.bytecode.getD vm.state.pc 0 = op)
    (hdec : fromU8 op = some op)
    (harity : stackInputs op ≤ vm.state.stack.length)
    (hgas : baseGas op ≤ vm.state.gas)
    (hexec : executeOpcode vm.bytecode vm.jumpDests op vm.state [] =
      (.error e, s', j')) :
    stepForward vm = (.error e, { vm with state := s' }) := by
  rw [stepForward]
  simp only [hbyte, hdec, if_neg (Nat.not_le.mpr hpc),
    if_neg (Nat.not_lt.mpr harity), if_neg (Nat.not_lt.mpr hgas), hexec]

end TTBD

/-- C7. Gas-cost table: every PUSHn, DUPn, SWAPn costs 3; JUMPDEST 1;
ADD/SUB and the comparison/bitwise ops 3; MUL/DIV/SDIV/MOD/SMOD 5;
ADDMOD/MULMOD 8; JUMP 8; JUMPI 10; SLOAD/SSTORE 100; LOGk 375*(k+1);
CREATE/CREATE2 32000; SELFDESTRUCT 5000; STOP/RETURN/REVERT/INVALID 0.
PUSHn has immediate size n, 0 inputs and 1 output; DUPn consumes n and
produces n+1; SWAPn consumes n+1 and produces n+1. -/
theorem gas_cost_table_contract :
    (∀ k < 32, TTBD.baseGas (0x60 + k) = 3 ∧
      TTBD.immediateSize (0x60 + k) = k + 1 ∧
      TTBD.stackInputs (0x60 + k) = 0 ∧ TTBD.stackOutputs (0x60 + k) = 1) ∧
    (∀ k < 16, TTBD.baseGas (0x80 + k) = 3 ∧
      TTBD.stackInputs (0x80 + k) = k + 1 ∧
      TTBD.stackOutputs (0x80 + k) = k + 2) ∧
    (∀ k < 16, TTBD.baseGas (0x90 + k) = 3 ∧
      TTBD.stackInputs (0x90 + k) = k + 2 ∧
      TTBD.stackOutputs (0x90 + k) = k + 2) ∧
    TTBD.baseGas 0x5B = 1 ∧
    TTBD.baseGas 0x01 = 3 ∧ TTBD.baseGas 0x03 = 3 ∧
    (∀ b ∈ [0x10, 0x11, 0x12, 0x13, 0x14, 0x15, 0x16, 0x17, 0x18, 0x19],
      TTBD.baseGas b = 3) ∧
    (∀ b ∈ [0x02, 0x04, 0x05, 0x06, 0x07], TTBD.baseGas b = 5) ∧
    TTBD.baseGas 0x08 = 8 ∧ TTBD.baseGas 0x09 = 8 ∧
    TTBD.baseGas 0x56 = 8 ∧ TTBD.baseGas 0x57 = 10 ∧
    TTBD.baseGas 0x54 = 100 ∧ TTBD.baseGas 0x55 = 100 ∧
    (∀ k < 5, TTBD.baseGas (0xA0 + k) = 375 * (k + 1)) ∧
    TTBD.baseGas 0xF0 = 32000 ∧ TTBD.baseGas 0xF5 = 32000 ∧
    TTBD.baseGas 0xFF = 5000 ∧
    TTBD.baseGas 0x00 = 0 ∧ TTBD.baseGas 0xF3 = 0 ∧
    TTBD.baseGas 0xFD = 0 ∧ TTBD.baseGas 0xFE = 0 := by
  decide

namespace TTBD

/-- C2 (amended). Error atomicity except for InvalidJump operand pops:
whenever `step_forward` returns an error, the journal, bytecode, call
stack, pc, gas, memory, storage, call depth and return data are
unchanged; for every error other than `InvalidJump` the whole VM is
unchanged; an `InvalidJump` error additionally leaves the stack with
exactly the one (JUMP) or two (JUMPI) popped operands removed. Stated
for states respecting the Rust stack-capacity invariant. -/
theorem step_error_atomicity_amended (vm : Vm) (e : VmError) (vm' : Vm)
    (hcap : vm.state.stack.length ≤ MAX_STACK_SIZE)
    (h : stepForward vm = (.error e, vm')) :
    vm'.journal = vm.journal ∧ vm'.bytecode = vm.bytecode ∧
    vm'.callStack = vm.callStack ∧
    vm'.state.pc = vm.state.pc ∧ vm'.state.gas = vm.state.gas ∧
    vm'.state.memory = vm.state.memory ∧ vm'.state.storage = vm.state.storage ∧
    vm'.state.callDepth = vm.state.callDepth ∧
    vm'.state.returnData = vm.state.returnData ∧
    ((∀ d, e ≠ .invalidJump d) → vm' = vm) ∧
    ((∃ d, e = .invalidJump d) →
      vm'.state.stack = vm.state.stack.drop 1 ∨
        vm'.state.stack = vm.state.stack.drop 2) := by
  simp only [stepForward] at h
  split at h
  · exact absurd h (by simp)
  · split at h
    · simp only [Prod.mk.injEq, Except.error.injEq] at h
      obtain ⟨he, hvm⟩ := h
      subst hvm
      refine ⟨rfl, rfl, rfl, rfl, rfl, rfl, rfl, rfl, rfl, fun _ => rfl, ?_⟩
      rintro ⟨d, hd⟩
      rw [← he] at hd
      exact absurd hd (by simp)
    · split at h
      · simp only [Prod.mk.injEq, Except.error.injEq] at h
        obtain ⟨he, hvm⟩ := h
        subst hvm
        refine ⟨rfl, rfl, rfl, rfl, rfl, rfl, rfl, rfl, rfl, fun _ => rfl, ?_⟩
        rintro ⟨d, hd⟩
        rw [← he] at hd
        exact absurd hd (by simp)
      · rename_i hle
        split at h
        · simp only [Prod.mk.injEq, Except.error.injEq] at h
          obtain ⟨he, hvm⟩ := h
          subst hvm
          refine ⟨rfl, rfl, rfl, rfl, rfl, rfl, rfl, rfl, rfl, fun _ => rfl, ?_⟩
          rintro ⟨d, hd⟩
          rw [← he] at hd
          exact absurd hd (by simp)
        · split at h
          next e0 s' j' heq =>
            simp only [Prod.mk.injEq, Except.error.injEq] at h
            obtain ⟨he, hvm⟩ := h
            subst hvm
            have harity : stackInputs _ ≤ vm.state.stack.length := Nat.not_lt.mp hle
            obtain ⟨hpc', hgas', hmem', hstor', hcd', hrd', hsplit⟩ :=
              executeOpcode_error_char _ _ _ _ _ _ _ _ harity hcap heq
            refine ⟨rfl, rfl, rfl, hpc', hgas', hmem', hstor', hcd', hrd', ?_, ?_⟩
            · intro hne
              rcases hsplit with ⟨hss, _⟩ | ⟨⟨d, hd⟩, _⟩
              · simp only [hss]
              · exact absurd (he.symm.trans hd) (hne d)
            · rintro ⟨d, hd⟩
              rcases hsplit with ⟨hss, hne0⟩ | ⟨_, hdrop⟩
              · exact absurd (he.trans hd) (hne0 d)
              · exact hdrop
          next halt s1 j1 heq =>
            obtain ⟨r, hr⟩ := stepFinish_fst_isOk vm _ _ halt s1 j1
            have h1 := congrArg Prod.fst h
            rw [hr] at h1
            exact absurd h1 (by simp)

end TTBD

set_option maxHeartbeats 2000000 in
/-- C2 (counterexample). On bytecode `60 03 56` (PUSH1 3, JUMP) with
100000 gas, the second `step_forward` fails with InvalidJump 3 but the
stack, which held [3] before the call, is empty afterwards: the
observable VM state after the error differs from the state before,
refuting the claim as stated (the journal length is unchanged). -/
theorem step_invalid_jump_mutates_stack :
    (TTBD.stepForward
      ((TTBD.stepForward
        (TTBD.Vm.new [0x60, 3, 0x56] 100000 TTBD.BlockContext.default)).2)).1 =
      .error (.invalidJump 3) ∧
    ((TTBD.stepForward
      (TTBD.Vm.new [0x60, 3, 0x56] 100000 TTBD.BlockContext.default)).2).state.stack =
      [3] ∧
    (TTBD.stepForward
      ((TTBD.stepForward
        (TTBD.Vm.new [0x60, 3, 0x56] 100000 TTBD.BlockContext.default)).2)).2.state.stack =
      [] ∧
    (TTBD.stepForward
      ((TTBD.stepForward
        (TTBD.Vm.new [0x60, 3, 0x56] 100000 TTBD.BlockContext.default)).2)).2.journal.instructions.length =
      ((TTBD.stepForward
        (TTBD.Vm.new [0x60, 3, 0x56] 100000 TTBD.BlockContext.default)).2).journal.instructions.length := by
  decide

set_option maxHeartbeats 2000000 in
/-- C2 (witness for the amended theorem): the amended atomicity
statement applied at the concrete failing JUMP above. -/
theorem step_error_atomicity_amended_witness :
    ((TTBD.stepForward
      (TTBD.Vm.new [0x60, 3, 0x56] 100000 TTBD.BlockContext.default)).2).state.stack.length ≤
      TTBD.MAX_STACK_SIZE ∧
    ((TTBD.stepForward
      ((TTBD.stepForward
        (TTBD.Vm.new [0x60, 3, 0x56] 100000 TTBD.BlockContext.default)).2)).2.journal =
      ((TTBD.stepForward
        (TTBD.Vm.new [0x60, 3, 0x56] 100000 TTBD.BlockContext.default)).2).journal ∧
    ((∃ d, (TTBD.VmError.invalidJump 3) = TTBD.VmError.invalidJump d) →
      (TTBD.stepForward
        ((TTBD.stepForward
          (TTBD.Vm.new [0x60, 3, 0x56] 100000 TTBD.BlockContext.default)).2)).2.state.stack =
        ((TTBD.stepForward
          (TTBD.Vm.new [0x60, 3, 0x56] 100000 TTBD.BlockContext.default)).2).state.stack.drop 1 ∨
      (TTBD.stepForward
        ((TTBD.stepForward
          (TTBD.Vm.new [0x60, 3, 0x56] 100000 TTBD.BlockContext.default)).2)).2.state.stack =
        ((TTBD.stepForward
          (TTBD.Vm.new [0x60, 3, 0x56] 100000 TTBD.BlockContext.default)).2).state.stack.drop 2)) := by
  have h := TTBD.step_error_atomicity_amended
    ((TTBD.stepForward (TTBD.Vm.new [0x60, 3, 0x56] 100000 TTBD.BlockContext.default)).2)
    (.invalidJump 3)
    ((TTBD.stepForward
      ((TTBD.stepForward (TTBD.Vm.new [0x60, 3, 0x56] 100000 TTBD.BlockContext.default)).2)).2)
    (by decide)
    (Prod.ext (by decide) rfl)
  exact ⟨by decide, h.1, fun hd => h.2.2.2.2.2.2.2.2.2.2 hd⟩

namespace TTBD

/-- C3. Error-check ordering of `step_forward`: pc past end halts with
Stop before anything else; then an unrecognized byte yields
InvalidOpcode regardless of stack and gas; then insufficient stack
arity yields StackUnderflow regardless of gas; then insufficient gas
against the base cost yields OutOfGas; and only then do
opcode-specific constraints fire, e.g. JUMP to an invalid target
yields InvalidJump. -/
theorem step_error_check_ordering (vm : Vm) :
    (vm.bytecode.length ≤ vm.state.pc →
      stepForward vm = (.ok (.halted .stop), vm)) ∧
    (vm.state.pc < vm.bytecode.length →
      fromU8 (vm.bytecode.getD vm.state.pc 0) = none →
      stepForward vm =
        (.error (.invalidOpcode (vm.bytecode.getD vm.state.pc 0)), vm)) ∧
    (∀ op, vm.state.pc < vm.bytecode.length →
      fromU8 (vm.bytecode.getD vm.state.pc 0) = some op →
      vm.state.stack.length < stackInputs op →
      stepForward vm =
        (.error (.stackUnderflow (stackInputs op) vm.state.stack.length), vm)) ∧
    (∀ op, vm.state.pc < vm.bytecode.length →
      fromU8 (vm.bytecode.getD vm.state.pc 0) = some op →
      stackInputs op ≤ vm.state.stack.length →
      vm.state.gas < baseGas op →
      stepForward vm = (.error (.outOfGas (baseGas op) vm.state.gas), vm)) ∧
    (∀ d rest, vm.state.pc < vm.bytecode.length →
      vm.bytecode.getD vm.state.pc 0 = 0x56 →
      vm.state.stack = d :: rest →
      baseGas 0x56 ≤ vm.state.gas →
      vm.jumpDests.getD (asUsize d) false = false →
      stepForward vm = (.error (.invalidJump (asUsize d)),
        { vm with state := { vm.state with stack := rest } })) := by
  refine ⟨?_, ?_, ?_, ?_, ?_⟩
  · intro h
    rw [stepForward, if_pos h]
  · intro h1 h2
    rw [stepForward]
    simp only [h2, if_neg (Nat.not_le.mpr h1)]
  · intro op h1 hop hlt
    rw [stepForward]
    simp only [hop, if_neg (Nat.not_le.mpr h1), if_pos hlt]
  · intro op h1 hop harity hlt
    rw [stepForward]
    simp only [hop, if_neg (Nat.not_le.mpr h1), if_neg (Nat.not_lt.mpr harity),
      if_pos hlt]
  · intro d rest h1 hb hstk hgas hinv
    have hexec : executeOpcode vm.bytecode vm.jumpDests 0x56 vm.state [] =
        (.error (.invalidJump (asUsize d)), { vm.state with stack := rest },
          [JournalEntry.stackPop d]) := by
      show executeJump vm.jumpDests vm.state [] = _
      simp [executeJump, hstk, Stack.pop, hinv]
      rw [← List.getD_eq_getElem?_getD]
      exact hinv
    exact stepForward_error_eq vm 0x56 _ _ _ h1 hb rfl
      (by rw [hstk]; exact Nat.succ_le_succ (Nat.zero_le _)) hgas hexec

end TTBD

set_option maxHeartbeats 2000000 in
/-- C3 (witness). The ordering theorem applied at a concrete VM: the
bytecode `FE` (unrecognized arity aside, INVALID is recognized) is not
suitable, so use byte `0xEF` which from_u8 rejects: with an empty
stack and zero gas the step still reports InvalidOpcode 0xEF. -/
theorem step_error_check_ordering_witness :
    (0 : Nat) < ([0xEF] : List Nat).length ∧
    TTBD.fromU8 0xEF = none ∧
    TTBD.stepForward (TTBD.Vm.new [0xEF] 0 TTBD.BlockContext.default) =
      (.error (.invalidOpcode 0xEF),
        TTBD.Vm.new [0xEF] 0 TTBD.BlockContext.default) := by
  refine ⟨by decide, by decide, ?_⟩
  exact (TTBD.step_error_check_ordering
    (TTBD.Vm.new [0xEF] 0 TTBD.BlockContext.default)).2.1 (by decide) (by decide)

namespace TTBD

/-- JUMPI with a zero condition pops both operands and does nothing
else: no target validity check, no pc override. -/
theorem executeJumpI_zero_eq (jumpDests : List Bool) (s : VmState)
    (j : List JournalEntry) (d c : Nat) (rest : List Nat)
    (hstk : s.stack = d :: c :: rest) (hc : isZeroU c = true) :
    executeJumpI jumpDests s j =
      (.ok none, { s with stack := rest },
        (j ++ [.stackPop d]) ++ [.stackPop c]) := by
  simp only [executeJumpI, hstk, Stack.pop, hc, if_true]

/-- C9. For every VM state where JUMPI executes with a zero condition,
`step_forward` succeeds without ever consulting the jump-destination
bitmap: the destination `d` is arbitrary (invalid or past the end of
the bytecode included), no InvalidJump is possible, and pc advances by
1 as for a non-jumping instruction. -/
theorem jumpi_zero_cond_never_invalid (vm : Vm) (d c : Nat) (rest : List Nat)
    (hpc : vm.state.pc < vm.bytecode.length)
    (hbyte : vm.bytecode.getD vm.state.pc 0 = 0x57)
    (hstk : vm.state.stack = d :: c :: rest)
    (hc : isZeroU c = true)
    (hgas : 10 ≤ vm.state.gas) :
    (stepForward vm).1 = .ok (.executed 0x57 10) ∧
    (stepForward vm).2.state.pc = vm.state.pc + 1 ∧
    (stepForward vm).2.state.stack = rest := by
  have hexec : executeOpcode vm.bytecode vm.jumpDests 0x57 vm.state [] =
      (.ok none, { vm.state with stack := rest },
        (([] : List JournalEntry) ++ [.stackPop d]) ++ [.stackPop c]) := by
    show executeJumpI vm.jumpDests vm.state [] = _
    exact executeJumpI_zero_eq _ _ _ _ _ _ hstk hc
  rw [stepForward_ok_eq vm 0x57 none _ _ hpc hbyte rfl
    (by rw [hstk]; exact Nat.succ_le_succ (Nat.succ_le_succ (Nat.zero_le _)))
    hgas hexec]
  refine ⟨rfl, ?_, ?_⟩
  · rw [stepFinish_snd_state]
    unfold stepFinishState
    rw [if_pos (show ({ vm.state with stack := rest } : VmState).pc = vm.state.pc
      from rfl)]
    rfl
  · rw [stepFinish_snd_state]
    unfold stepFinishState
    rw [if_pos (show ({ vm.state with stack := rest } : VmState).pc = vm.state.pc
      from rfl)]

end TTBD

set_option maxHeartbeats 2000000 in
/-- C9 (witness). A concrete JUMPI with condition 0 and destination 99
(way past the one-byte bytecode, and not a JUMPDEST) executes
successfully and advances pc to 1. -/
theorem jumpi_zero_cond_never_invalid_witness :
    ((0 : Nat) < ([0x57] : List Nat).length ∧
      TTBD.isZeroU 0 = true) ∧
    ((TTBD.stepForward
      { state := { TTBD.VmState.new 100 with stack := [99, 0] },
        bytecode := [0x57],
        journal := TTBD.Journal.new 1000 1000000,
        context := TTBD.BlockContext.default,
        jumpDests := TTBD.analyzeJumpDests [0x57],
        callStack := [] }).1 = .ok (.executed 0x57 10) ∧
    (TTBD.stepForward
      { state := { TTBD.VmState.new 100 with stack := [99, 0] },
        bytecode := [0x57],
        journal := TTBD.Journal.new 1000 1000000,
        context := TTBD.BlockContext.default,
        jumpDests := TTBD.analyzeJumpDests [0x57],
        callStack := [] }).2.state.pc = 0 + 1) := by
  refine ⟨⟨by decide, by decide⟩, ?_⟩
  have h := TTBD.jumpi_zero_cond_never_invalid
    { state := { TTBD.VmState.new 100 with stack := [99, 0] },
      bytecode := [0x57],
      journal := TTBD.Journal.new 1000 1000000,
      context := TTBD.BlockContext.default,
      jumpDests := TTBD.analyzeJumpDests [0x57],
      callStack := [] }
    99 0 [] (by decide) (by decide) rfl (by decide) (by decide)
  exact ⟨h.1, h.2.1⟩

namespace TTBD

/-- C10. The GAS opcode pushes the gas remaining before its own base
cost (3) is deducted, because the dispatch's semantic effect runs
before the gas deduction in `step_forward`: after a successful GAS
step, the top of the stack equals the post-step gas plus 3. -/
theorem gas_opcode_pushes_pre_deduction_gas (vm : Vm)
    (hpc : vm.state.pc < vm.bytecode.length)
    (hbyte : vm.bytecode.getD vm.state.pc 0 = 0x5A)
    (hroom : vm.state.stack.length < MAX_STACK_SIZE)
    (hgas : 3 ≤ vm.state.gas) :
    (stepForward vm).1 = .ok (.executed 0x5A 3) ∧
    (stepForward vm).2.state.stack = vm.state.gas :: vm.state.stack ∧
    (stepForward vm).2.state.gas + 3 = vm.state.gas ∧
    (stepForward vm).2.state.stack.head? =
      some ((stepForward vm).2.state.gas + 3) := by
  have hpush : Stack.push vm.state.stack vm.state.gas =
      .ok (vm.state.gas :: vm.state.stack) := by
    unfold Stack.push
    rw [if_neg (Nat.not_le.mpr hroom)]
  have hexec : executeOpcode vm.bytecode vm.jumpDests 0x5A vm.state [] =
      (.ok none, { vm.state with stack := vm.state.gas :: vm.state.stack },
        [JournalEntry.stackPush vm.state.gas]) := by
    show execPushValue vm.state.gas vm.state [] = _
    unfold execPushValue
    rw [hpush]
    rfl
  have hin : stackInputs 0x5A = 0 := rfl
  have hbg : baseGas 0x5A = 3 := rfl
  rw [stepForward_ok_eq vm 0x5A none _ _ hpc hbyte rfl (by omega) (by omega) hexec]
  have hgeq : (stepFinish vm 0x5A 0x5A none
      { vm.state with stack := vm.state.gas :: vm.state.stack }
      [JournalEntry.stackPush vm.state.gas]).2.state.gas + 3 = vm.state.gas := by
    rw [stepFinish_snd_state]
    unfold stepFinishState
    rw [if_pos (show ({ vm.state with
      stack := vm.state.gas :: vm.state.stack } : VmState).pc = vm.state.pc
      from rfl)]
    show vm.state.gas - baseGas 0x5A + 3 = vm.state.gas
    omega
  have hseq : (stepFinish vm 0x5A 0x5A none
      { vm.state with stack := vm.state.gas :: vm.state.stack }
      [JournalEntry.stackPush vm.state.gas]).2.state.stack =
      vm.state.gas :: vm.state.stack := by
    rw [stepFinish_snd_state]
    unfold stepFinishState
    rw [if_pos (show ({ vm.state with
      stack := vm.state.gas :: vm.state.stack } : VmState).pc = vm.state.pc
      from rfl)]
  refine ⟨rfl, hseq, hgeq, ?_⟩
  rw [hseq, hgeq]
  rfl

end TTBD

set_option maxHeartbeats 2000000 in
/-- C10 (witness). GAS at 100 gas: the step pushes 100, leaves 97 gas,
and the top of the stack equals 97 + 3. -/
theorem gas_opcode_pushes_pre_deduction_gas_witness :
    ((0 : Nat) < ([0x5A] : List Nat).length ∧
      ([7] : List Nat).length < TTBD.MAX_STACK_SIZE ∧ (3 : Nat) ≤ 100) ∧
    ((TTBD.stepForward
      { state := { TTBD.VmState.new 100 with stack := [7] },
        bytecode := [0x5A],
        journal := TTBD.Journal.new 1000 1000000,
        context := TTBD.BlockContext.default,
        jumpDests := TTBD.analyzeJumpDests [0x5A],
        callStack := [] }).2.state.stack = 100 :: [7] ∧
    (TTBD.stepForward
      { state := { TTBD.VmState.new 100 with stack := [7] },
        bytecode := [0x5A],
        journal := TTBD.Journal.new 1000 1000000,
        context := TTBD.BlockContext.default,
        jumpDests := TTBD.analyzeJumpDests [0x5A],
        callStack := [] }).2.state.gas + 3 = 100) := by
  refine ⟨⟨by decide, by decide, by decide⟩, ?_⟩
  have h := TTBD.gas_opcode_pushes_pre_deduction_gas
    { state := { TTBD.VmState.new 100 with stack := [7] },
      bytecode := [0x5A],
      journal := TTBD.Journal.new 1000 1000000,
      context := TTBD.BlockContext.default,
      jumpDests := TTBD.analyzeJumpDests [0x5A],
      callStack := [] }
    (by decide) (by decide) (by decide) (by decide)
  exact ⟨h.2.1, h.2.2.1⟩

namespace TTBD

/-- C5. Determinism: `run()` is a pure function of the construction
triple. Two fresh VMs built from the same (bytecode, initial gas,
block context) produce equal execution results and equal final state
hashes as computed by `compute_state_hash`; the embedding has no other
input, so the result is literally determined by the triple. -/
theorem run_deterministic (bytecode : List Nat) (gas : Nat) (ctx : BlockContext)
    (vm1 vm2 : Vm)
    (h1 : vm1 = Vm.new bytecode gas ctx)
    (h2 : vm2 = Vm.new bytecode gas ctx) :
    (Vm.run vm1).1 = (Vm.run vm2).1 ∧
    Vm.computeStateHash (Vm.run vm1).2 = Vm.computeStateHash (Vm.run vm2).2 := by
  subst h1
  subst h2
  exact ⟨rfl, rfl⟩

end TTBD

set_option maxHeartbeats 2000000 in
/-- C5 (witness). Two fresh VMs on `PUSH1 10, PUSH1 20, ADD, STOP` with
100000 gas agree on the run result and the final state hash, and that
result is Success with 9 gas used. -/
theorem run_deterministic_witness :
    ((TTBD.Vm.run (TTBD.Vm.new [0x60, 0x0A, 0x60, 0x14, 0x01, 0x00] 100000
        TTBD.BlockContext.default)).1 =
      (TTBD.Vm.run (TTBD.Vm.new [0x60, 0x0A, 0x60, 0x14, 0x01, 0x00] 100000
        TTBD.BlockContext.default)).1 ∧
      TTBD.Vm.computeStateHash
        (TTBD.Vm.run (TTBD.Vm.new [0x60, 0x0A, 0x60, 0x14, 0x01, 0x00] 100000
          TTBD.BlockContext.default)).2 =
      TTBD.Vm.computeStateHash
        (TTBD.Vm.run (TTBD.Vm.new [0x60, 0x0A, 0x60, 0x14, 0x01, 0x00] 100000
          TTBD.BlockContext.default)).2) ∧
    (TTBD.Vm.run (TTBD.Vm.new [0x60, 0x0A, 0x60, 0x14, 0x01, 0x00] 100000
      TTBD.BlockContext.default)).1 = some (.ok (.success [] 9)) := by
  refine ⟨TTBD.run_deterministic [0x60, 0x0A, 0x60, 0x14, 0x01, 0x00] 100000
    TTBD.BlockContext.default _ _ rfl rfl, ?_⟩
  decide

namespace TTBD

/-- C8. Journal soft cap: when recording pushes the length past
`max_size`, the oldest `max_size / 10` instruction entries are
dropped, checkpoints whose instruction index falls below the drop
count are removed, the surviving checkpoints' indices are decremented
by the drop count — and rewinding past the dropped horizon fails with
`JournalExhausted` (a backward step on an empty journal errors and
leaves the VM untouched). -/
theorem journal_soft_cap (j : Journal) (insn : InstructionJournal) (vm : Vm)
    (hover : j.maxSize < j.instructions.length + 1)
    (hempty : vm.journal.instructions = []) :
    (j.record insn).instructions =
      (j.instructions ++ [insn]).drop (j.maxSize / 10) ∧
    (j.record insn).checkpoints =
      (j.checkpoints.filter (fun c => j.maxSize / 10 ≤ c.instructionIndex)).map
        (fun c => { c with instructionIndex := c.instructionIndex - j.maxSize / 10 }) ∧
    stepBackward vm = (.error .journalExhausted, vm) := by
  have hcond : j.maxSize < (j.instructions ++ [insn]).length := by
    rw [List.length_append]
    simpa using hover
  refine ⟨?_, ?_, ?_⟩
  · unfold Journal.record
    rw [if_pos hcond]
  · unfold Journal.record
    rw [if_pos hcond]
  · unfold stepBackward Journal.pop
    rw [hempty]
    rfl

end TTBD

set_option maxHeartbeats 1000000 in
/-- C8 (witness). A journal with cap 10 holding 10 entries: recording
an 11th drops the oldest entry (10/10 = 1), removes the checkpoint at
index 0, decrements the surviving checkpoint from 3 to 2; and a
backward step on a fresh VM with an empty journal fails with
JournalExhausted. -/
theorem journal_soft_cap_witness :
    ((10 : Nat) <
      (TTBD.Journal.mk (List.replicate 10 (⟨0, 0, [], none, 0, 0⟩ : TTBD.InstructionJournal))
        ([⟨0, ⟨[], [], [], 0, 0, 0, []⟩⟩, ⟨3, ⟨[], [], [], 0, 0, 0, []⟩⟩] : List TTBD.Checkpoint)
        5 10).instructions.length + 1 ∧
      (TTBD.Vm.new [] 0 TTBD.BlockContext.default).journal.instructions = []) ∧
    ((TTBD.Journal.record
        (TTBD.Journal.mk (List.replicate 10 (⟨0, 0, [], none, 0, 0⟩ : TTBD.InstructionJournal))
          ([⟨0, ⟨[], [], [], 0, 0, 0, []⟩⟩, ⟨3, ⟨[], [], [], 0, 0, 0, []⟩⟩] : List TTBD.Checkpoint)
          5 10)
        (⟨1, 1, [], none, 0, 0⟩ : TTBD.InstructionJournal)).instructions =
      ((TTBD.Journal.mk (List.replicate 10 (⟨0, 0, [], none, 0, 0⟩ : TTBD.InstructionJournal))
          ([⟨0, ⟨[], [], [], 0, 0, 0, []⟩⟩, ⟨3, ⟨[], [], [], 0, 0, 0, []⟩⟩] : List TTBD.Checkpoint)
          5 10).instructions ++ [(⟨1, 1, [], none, 0, 0⟩ : TTBD.InstructionJournal)]).drop 1 ∧
    (TTBD.Journal.record
        (TTBD.Journal.mk (List.replicate 10 (⟨0, 0, [], none, 0, 0⟩ : TTBD.InstructionJournal))
          ([⟨0, ⟨[], [], [], 0, 0, 0, []⟩⟩, ⟨3, ⟨[], [], [], 0, 0, 0, []⟩⟩] : List TTBD.Checkpoint)
          5 10)
        (⟨1, 1, [], none, 0, 0⟩ : TTBD.InstructionJournal)).checkpoints =
      ([⟨2, ⟨[], [], [], 0, 0, 0, []⟩⟩] : List TTBD.Checkpoint) ∧
    TTBD.stepBackward (TTBD.Vm.new [] 0 TTBD.BlockContext.default) =
      (.error .journalExhausted, TTBD.Vm.new [] 0 TTBD.BlockContext.default)) := by
  have h := TTBD.journal_soft_cap
    (TTBD.Journal.mk (List.replicate 10 (⟨0, 0, [], none, 0, 0⟩ : TTBD.InstructionJournal))
      ([⟨0, ⟨[], [], [], 0, 0, 0, []⟩⟩, ⟨3, ⟨[], [], [], 0, 0, 0, []⟩⟩] : List TTBD.Checkpoint)
      5 10)
    (⟨1, 1, [], none, 0, 0⟩ : TTBD.InstructionJournal)
    (TTBD.Vm.new [] 0 TTBD.BlockContext.default)
    (by decide) (by decide)
  exact ⟨⟨by decide, by decide⟩, h.1, by decide, h.2.2⟩

namespace TTBD

/-- Leading zero bytes do not change a big-endian decoding. -/
theorem fromBeBytes_replicate_zero (k : Nat) (l : List Nat) :
    fromBeBytes (List.replicate k 0 ++ l) = fromBeBytes l := by
  unfold fromBeBytes
  rw [List.foldl_append]
  have hz : List.foldl (fun acc b => acc * 256 + b) 0 (List.replicate k 0) = 0 := by
    induction k with
    | zero => rfl
    | succ n ih => simpa [List.replicate_succ] using ih
  rw [hz]

/-- Dropping a strict prefix preserves the last element. -/
theorem getLast?_drop_of_lt {α : Type} (l : List α) (k : Nat) (h : k < l.length) :
    (l.drop k).getLast? = l.getLast? := by
  induction l generalizing k with
  | nil => simp at h
  | cons a t ih =>
    cases k with
    | zero => rfl
    | succ k' =>
      simp only [List.drop_succ_cons]
      rw [ih k' (by simpa using h)]
      cases t with
      | nil => simp at h
      | cons b t' => rw [List.getLast?_cons_cons]

/-- The newest instruction of a journal after `record` is the recorded
one (the soft-cap truncation only drops from the front). -/
theorem record_getLast (j : Journal) (insn : InstructionJournal) :
    ((j.record insn).instructions).getLast? = some insn := by
  simp only [Journal.record]
  split
  next hlen =>
    rw [getLast?_drop_of_lt]
    · exact List.getLast?_concat _
    · have := Nat.div_le_self j.maxSize 10
      omega
  next => exact List.getLast?_concat _

/-- `execute_opcode` dispatches PUSH bytes to `execute_push`. -/
theorem executeOpcode_push_eq (bytecode : List Nat) (jumpDests : List Bool)
    (op : Nat) (s : VmState) (j : List JournalEntry) (h : isPushOp op = true) :
    executeOpcode bytecode jumpDests op s j = executePush bytecode op s j := by
  unfold executeOpcode
  rw [if_pos h]

/-- Evaluation of `execute_push` when the stack has room. -/
theorem executePush_ok_eq (bytecode : List Nat) (op : Nat) (s : VmState)
    (j : List JournalEntry) (hroom : s.stack.length < MAX_STACK_SIZE) :
    executePush bytecode op s j =
      (.ok none,
        { s with stack := fromBeBytes (List.replicate (32 - immediateSize op) 0 ++
            (List.range (immediateSize op)).map
              (fun i => if s.pc + 1 + i < bytecode.length
                then bytecode.getD (s.pc + 1 + i) 0 else 0)) :: s.stack },
        j ++ [.stackPush (fromBeBytes (List.replicate (32 - immediateSize op) 0 ++
            (List.range (immediateSize op)).map
              (fun i => if s.pc + 1 + i < bytecode.length
                then bytecode.getD (s.pc + 1 + i) 0 else 0)))]) := by
  have hp := stackPush_ok s.stack
    (fromBeBytes (List.replicate (32 - immediateSize op) 0 ++
      (List.range (immediateSize op)).map
        (fun i => if s.pc + 1 + i < bytecode.length
          then bytecode.getD (s.pc + 1 + i) 0 else 0))) hroom
  simp only [executePush, hp]

/-- The buffer `execute_push` builds decodes to the claim-side value:
the big-endian decoding of the `n` immediate bytes with out-of-range
positions contributing zero. -/
theorem pushBytes_eq_spec (bytecode : List Nat) (pc n : Nat) :
    fromBeBytes (List.replicate (32 - n) 0 ++
      (List.range n).map (fun i => if pc + 1 + i < bytecode.length
        then bytecode.getD (pc + 1 + i) 0 else 0)) =
    pushSpecValue bytecode pc n := by
  rw [fromBeBytes_replicate_zero]
  unfold pushSpecValue
  congr 1
  apply List.map_congr_left
  intro i _
  split
  · rfl
  · rw [List.getD_eq_default]
    omega

/-- The step bookkeeping adds no `StackPush` entries beyond the
dispatch's. -/
theorem stepFinishEntries_countP (vm : Vm) (op : Nat) (s1 : VmState)
    (j1 : List JournalEntry) :
    (stepFinishEntries vm op s1 j1).countP JournalEntry.isStackPush =
      j1.countP JournalEntry.isStackPush := by
  unfold stepFinishEntries
  split <;>
    simp [JournalEntry.isStackPush, List.countP_append, List.countP_cons]

/-- A halting-free `stepFinish` reports Executed with the base cost. -/
theorem stepFinish_fst_none (vm : Vm) (ob op : Nat) (s1 : VmState)
    (j1 : List JournalEntry) :
    (stepFinish vm ob op none s1 j1).1 = .ok (.executed op (baseGas op)) := rfl

/-- C6. PUSH equivalence: after a successful PUSHn (n in 1..32) the
top of the stack equals the big-endian decoding, zero-extended to 256
bits, of the n bytes at pc+1..pc+n with positions past the end of the
bytecode contributing zero; pc advances by 1+n; and the recorded
instruction journal holds exactly one StackPush delta. -/
theorem push_equivalence (vm : Vm) (n : Nat)
    (hn1 : 1 ≤ n) (hn2 : n ≤ 32)
    (hpc : vm.state.pc < vm.bytecode.length)
    (hbyte : vm.bytecode.getD vm.state.pc 0 = 0x5F + n)
    (hroom : vm.state.stack.length < MAX_STACK_SIZE)
    (hgas : 3 ≤ vm.state.gas) :
    (stepForward vm).1 = .ok (.executed (0x5F + n) 3) ∧
    (stepForward vm).2.state.stack =
      pushSpecValue vm.bytecode vm.state.pc n :: vm.state.stack ∧
    (stepForward vm).2.state.pc = vm.state.pc + 1 + n ∧
    (∃ insn, (stepForward vm).2.journal.instructions.getLast? = some insn ∧
      insn.entries.countP JournalEntry.isStackPush = 1) := by
  have h60 : 0x60 ≤ 0x5F + n := by omega
  have h7F : 0x5F + n ≤ 0x7F := by omega
  have him : immediateSize (0x5F + n) = n := by
    rw [immediateSize_push h60 h7F]
    omega
  have hexec := (executeOpcode_push_eq vm.bytecode vm.jumpDests (0x5F + n)
    vm.state [] (isPushOp_true h60 h7F)).trans
    (executePush_ok_eq vm.bytecode (0x5F + n) vm.state [] hroom)
  rw [him] at hexec
  rw [stepForward_ok_eq vm (0x5F + n) none _ _ hpc hbyte (fromU8_push h60 h7F)
    (by rw [stackInputs_push h60 h7F]; omega)
    (by rw [baseGas_push h60 h7F]; exact hgas) hexec]
  refine ⟨(stepFinish_fst_none _ _ _ _ _).trans (by rw [baseGas_push h60 h7F]),
    ?_, ?_, ?_⟩
  · rw [stepFinish_snd_state]
    unfold stepFinishState
    rw [if_pos (show (vm.state.pc = vm.state.pc) from rfl)]
    rw [← pushBytes_eq_spec vm.bytecode vm.state.pc n]
  · rw [stepFinish_snd_state]
    unfold stepFinishState
    rw [if_pos (show (vm.state.pc = vm.state.pc) from rfl)]
    rw [him]
  · refine ⟨_, by rw [stepFinish_snd_instructions, record_getLast], ?_⟩
    show (stepFinishEntries _ _ _ _).countP JournalEntry.isStackPush = 1
    rw [stepFinishEntries_countP]
    rfl

end TTBD

set_option maxHeartbeats 2000000 in
/-- C6 (witness). PUSH2 truncated at the end of the bytecode
`61 AB` (PUSH2 with a single immediate byte 0xAB): the pushed word is
0xAB00 (right-padded with zero), pc lands at 3, and the recorded
instruction journal carries exactly one StackPush. -/
theorem push_equivalence_witness :
    ((1 : Nat) ≤ 2 ∧ (2 : Nat) ≤ 32 ∧ (0 : Nat) < ([0x61, 0xAB] : List Nat).length ∧
      ([0x61, 0xAB] : List Nat).getD 0 0 = 0x5F + 2 ∧
      TTBD.pushSpecValue [0x61, 0xAB] 0 2 = 0xAB00) ∧
    ((TTBD.stepForward (TTBD.Vm.new [0x61, 0xAB] 100000
        TTBD.BlockContext.default)).1 = .ok (.executed (0x5F + 2) 3) ∧
    (TTBD.stepForward (TTBD.Vm.new [0x61, 0xAB] 100000
        TTBD.BlockContext.default)).2.state.stack =
      TTBD.pushSpecValue [0x61, 0xAB] 0 2 :: [] ∧
    (TTBD.stepForward (TTBD.Vm.new [0x61, 0xAB] 100000
        TTBD.BlockContext.default)).2.state.pc = 0 + 1 + 2) := by
  have h := TTBD.push_equivalence
    (TTBD.Vm.new [0x61, 0xAB] 100000 TTBD.BlockContext.default) 2
    (by decide) (by decide) (by decide) (by decide) (by decide) (by decide)
  exact ⟨⟨by decide, by decide, by decide, by decide, by decide⟩,
    h.1, h.2.1, h.2.2.1⟩

namespace TTBD

/-- Reading the set position of `List.set`. -/
theorem getD_set_self (l : List Bool) (i : Nat) (b : Bool) (h : i < l.length) :
    (l.set i b).getD i false = b := by
  induction l generalizing i with
  | nil => simp at h
  | cons a t ih =>
    cases i with
    | zero => rfl
    | succ i' => exact ih i' (by simpa using h)

/-- Reading another position of `List.set`. -/
theorem getD_set_ne (l : List Bool) (i j : Nat) (b : Bool) (h : i ≠ j) :
    (l.set i b).getD j false = l.getD j false := by
  induction l generalizing i j with
  | nil => rfl
  | cons a t ih =>
    cases i with
    | zero =>
      cases j with
      | zero => exact absurd rfl h
      | succ j' => rfl
    | succ i' =>
      cases j with
      | zero => rfl
      | succ j' => exact ih i' j' (by omega)

/-- Reading any position of an all-false vector. -/
theorem getD_replicate_false (k p : Nat) :
    (List.replicate k false).getD p false = false := by
  induction k generalizing p with
  | zero => rfl
  | succ k' ih =>
    cases p with
    | zero => rfl
    | succ p' => exact ih p'

/-- The scan never changes the bitmap's length. -/
theorem analyzeLoop_length (code : List Nat) (fuel : Nat) :
    ∀ i result, (analyzeLoop code fuel i result).length = result.length := by
  induction fuel with
  | zero => intro i result; rfl
  | succ f ih =>
    intro i result
    unfold analyzeLoop
    split
    · rw [ih]
      split <;> simp
    · rfl

/-- Scan positions lie between the scan's start and the end of the
bytecode. -/
theorem codeStartsLoop_mem (code : List Nat) (fuel : Nat) :
    ∀ i p, p ∈ codeStartsLoop code fuel i → i ≤ p ∧ p < code.length := by
  induction fuel with
  | zero => intro i p hp; simp [codeStartsLoop] at hp
  | succ f ih =>
    intro i p hp
    simp only [codeStartsLoop] at hp
    split at hp
    next hi =>
      rcases List.mem_cons.mp hp with rfl | hp'
      · exact ⟨Nat.le_refl _, hi⟩
      · have := ih _ _ hp'
        omega
    next => simp at hp

/-- Unfolding of one in-range scan step. -/
theorem codeStartsLoop_succ_pos (code : List Nat) (f i : Nat)
    (hi : i < code.length) :
    codeStartsLoop code (f + 1) i =
      i :: codeStartsLoop code f
        (i + (if 0x60 ≤ code.getD i 0 ∧ code.getD i 0 ≤ 0x7F
          then code.getD i 0 - 0x5F else 0) + 1) := by
  rw [codeStartsLoop]
  rw [if_pos hi]

/-- The scan sets exactly the visited JUMPDEST positions. -/
theorem analyzeLoop_getD (code : List Nat) (fuel : Nat) :
    ∀ i result p, result.length = code.length →
      (analyzeLoop code fuel i result).getD p false =
        (if p ∈ codeStartsLoop code fuel i ∧ code.getD p 0 = 0x5B then true
          else result.getD p false) := by
  induction fuel with
  | zero =>
    intro i result p h
    simp [analyzeLoop, codeStartsLoop]
  | succ f ih =>
    intro i result p hres
    unfold analyzeLoop
    split
    next hi =>
      rw [ih _ _ p (by split <;> simp [hres])]
      rw [codeStartsLoop_succ_pos code f i hi]
      simp only [List.mem_cons]
      by_cases hpi : p = i
      · subst hpi
        have hstar : p ∉ codeStartsLoop code f
            (p + (if 0x60 ≤ code.getD p 0 ∧ code.getD p 0 ≤ 0x7F
              then code.getD p 0 - 0x5F else 0) + 1) := by
          intro hmem
          have := codeStartsLoop_mem code f _ _ hmem
          omega
        have hset : (if code.getD p 0 = 0x5B then result.set p true
            else result).getD p false =
            (if code.getD p 0 = 0x5B then true else result.getD p false) := by
          split
          · exact getD_set_self _ _ _ (hres ▸ hi)
          · rfl
        rw [hset]
        by_cases hp5 : code.getD p 0 = 0x5B
        · rw [if_pos hp5, if_neg (fun hand => hstar hand.1),
            if_pos ⟨Or.inl rfl, hp5⟩]
        · rw [if_neg hp5, if_neg (fun hand => hp5 hand.2),
            if_neg (fun hand => hp5 hand.2)]
      · have hset : (if code.getD i 0 = 0x5B then result.set i true
            else result).getD p false = result.getD p false := by
          split
          · exact getD_set_ne _ _ _ _ (fun heq => hpi heq.symm)
          · rfl
        rw [hset]
        by_cases hp5 : code.getD p 0 = 0x5B
        · by_cases hmem : p ∈ codeStartsLoop code f
              (i + (if 0x60 ≤ code.getD i 0 ∧ code.getD i 0 ≤ 0x7F
                then code.getD i 0 - 0x5F else 0) + 1)
          · rw [if_pos ⟨hmem, hp5⟩, if_pos ⟨Or.inr hmem, hp5⟩]
          · rw [if_neg (fun hand => hmem hand.1),
              if_neg (fun hand => hand.1.elim (fun h' => hpi h') (fun h' => hmem h'))]
        · rw [if_neg (fun hand => hp5 hand.2), if_neg (fun hand => hp5 hand.2)]
    next hni =>
      rw [codeStartsLoop]
      rw [if_neg hni]
      simp

end TTBD

namespace TTBD

/-- Every bytecode position is a scan position or lies in the
immediate window of one. -/
theorem codeStartsLoop_cover (code : List Nat) (fuel : Nat) :
    ∀ i p, i ≤ p → p < code.length → code.length ≤ i + fuel →
      p ∈ codeStartsLoop code fuel i ∨
        ∃ j, j ∈ codeStartsLoop code fuel i ∧ 0x60 ≤ code.getD j 0 ∧
          code.getD j 0 ≤ 0x7F ∧ j < p ∧ p ≤ j + (code.getD j 0 - 0x5F) := by
  induction fuel with
  | zero => intro i p h1 h2 h3; omega
  | succ f ih =>
    intro i p h1 h2 h3
    rw [codeStartsLoop_succ_pos code f i (by omega)]
    by_cases hpi : p = i
    · left
      exact hpi ▸ List.mem_cons_self _ _
    · by_cases hpush : 0x60 ≤ code.getD i 0 ∧ code.getD i 0 ≤ 0x7F
      · rw [if_pos hpush]
        by_cases hwin : p ≤ i + (code.getD i 0 - 0x5F)
        · right
          exact ⟨i, List.mem_cons_self _ _, hpush.1, hpush.2, by omega, hwin⟩
        · rcases ih (i + (code.getD i 0 - 0x5F) + 1) p (by omega) h2 (by omega)
            with h | ⟨j, hj, hh⟩
          · exact Or.inl (List.mem_cons_of_mem _ h)
          · exact Or.inr ⟨j, List.mem_cons_of_mem _ hj, hh⟩
      · rw [if_neg hpush]
        rcases ih (i + 0 + 1) p (by omega) h2 (by omega) with h | ⟨j, hj, hh⟩
        · exact Or.inl (List.mem_cons_of_mem _ h)
        · exact Or.inr ⟨j, List.mem_cons_of_mem _ hj, hh⟩

/-- No scan position lies inside the immediate window of another scan
position. -/
theorem codeStartsLoop_no_window (code : List Nat) (fuel : Nat) :
    ∀ i j p, j ∈ codeStartsLoop code fuel i → p ∈ codeStartsLoop code fuel i →
      0x60 ≤ code.getD j 0 → code.getD j 0 ≤ 0x7F →
      j < p → p ≤ j + (code.getD j 0 - 0x5F) → False := by
  induction fuel with
  | zero => intro i j p hj _ _ _ _ _; simp [codeStartsLoop] at hj
  | succ f ih =>
    intro i j p hj hp h60 h7F hjp hpw
    have hmemj := codeStartsLoop_mem code (f + 1) i j hj
    rw [codeStartsLoop_succ_pos code f i (by omega)] at hj hp
    rcases List.mem_cons.mp hj with rfl | hj'
    · rcases List.mem_cons.mp hp with rfl | hp'
      · omega
      · rw [if_pos ⟨h60, h7F⟩] at hp'
        have hb := codeStartsLoop_mem code f _ p hp'
        omega
    · rcases List.mem_cons.mp hp with rfl | hp'
      · have := codeStartsLoop_mem code f _ j hj'
        omega
      · exact ih _ _ _ hj' hp' h60 h7F hjp hpw

end TTBD

namespace TTBD

/-- C4. Jump-dest soundness: the bitmap computed at VM construction
has the bytecode's length; position i is true iff the byte there is
0x5B and i does not lie inside the immediate window of any PUSH
reached as code by the linear scan; and `is_valid_jump` is false for
every index at or past the end of the bytecode. -/
theorem jump_dest_soundness (code : List Nat) (gas : Nat) (ctx : BlockContext) :
    (analyzeJumpDests code).length = code.length ∧
    (∀ i, i < code.length →
      ((analyzeJumpDests code).getD i false = true ↔
        (code.getD i 0 = 0x5B ∧ ¬ insidePushImmediate code i))) ∧
    (∀ d, code.length ≤ d → (Vm.new code gas ctx).isValidJump d = false) := by
  have hlen2 : (analyzeJumpDests code).length = code.length := by
    unfold analyzeJumpDests
    rw [analyzeLoop_length]
    simp
  have hgetD : ∀ p, (analyzeJumpDests code).getD p false =
      (if p ∈ codeStarts code ∧ code.getD p 0 = 0x5B then true else false) := by
    intro p
    unfold analyzeJumpDests codeStarts
    rw [analyzeLoop_getD code code.length 0 _ p (by simp)]
    rw [getD_replicate_false]
  refine ⟨hlen2, ?_, ?_⟩
  · intro i hi
    rw [hgetD i]
    constructor
    · intro ht
      by_cases hc : i ∈ codeStarts code ∧ code.getD i 0 = 0x5B
      · refine ⟨hc.2, ?_⟩
        rintro ⟨j, hjmem, hj60, hj7F, hji, hwin⟩
        exact codeStartsLoop_no_window code code.length 0 j i hjmem hc.1
          hj60 hj7F hji hwin
      · rw [if_neg hc] at ht
        exact absurd ht (by simp)
    · rintro ⟨h5, hnin⟩
      rcases codeStartsLoop_cover code code.length 0 i (Nat.zero_le _) hi
          (by omega) with hm | ⟨j, hj, hprops⟩
      · rw [if_pos ⟨hm, h5⟩]
      · exact absurd ⟨j, hj, hprops⟩ hnin
  · intro d hd
    show (analyzeJumpDests code).getD d false = false
    rw [List.getD_eq_default _ _ (hlen2 ▸ hd)]

end TTBD

set_option maxHeartbeats 1000000 in
/-- C4 (witness). On `60 5B 5B` (PUSH1 with immediate byte 0x5B, then
a real JUMPDEST) the bitmap is [false, false, true]; the soundness
characterization holds at the in-window position 1 and the code
position 2, and index 5 past the end is not a valid jump target. -/
theorem jump_dest_soundness_witness :
    ((1 : Nat) < ([0x60, 0x5B, 0x5B] : List Nat).length ∧
      (2 : Nat) < ([0x60, 0x5B, 0x5B] : List Nat).length ∧
      ([0x60, 0x5B, 0x5B] : List Nat).length ≤ 5) ∧
    TTBD.analyzeJumpDests [0x60, 0x5B, 0x5B] = [false, false, true] ∧
    ((TTBD.analyzeJumpDests [0x60, 0x5B, 0x5B]).getD 1 false = true ↔
      (([0x60, 0x5B, 0x5B] : List Nat).getD 1 0 = 0x5B ∧
        ¬ TTBD.insidePushImmediate [0x60, 0x5B, 0x5B] 1)) ∧
    ((TTBD.analyzeJumpDests [0x60, 0x5B, 0x5B]).getD 2 false = true ↔
      (([0x60, 0x5B, 0x5B] : List Nat).getD 2 0 = 0x5B ∧
        ¬ TTBD.insidePushImmediate [0x60, 0x5B, 0x5B] 2)) ∧
    (TTBD.Vm.new [0x60, 0x5B, 0x5B] 0 TTBD.BlockContext.default).isValidJump 5 = false := by
  have h := TTBD.jump_dest_soundness [0x60, 0x5B, 0x5B] 0 TTBD.BlockContext.default
  exact ⟨⟨by decide, by decide, by decide⟩, by decide,
    h.2.1 1 (by decide), h.2.1 2 (by decide), h.2.2 5 (by decide)⟩

set_option maxHeartbeats 4000000 in
/-- C1. Refuted on SWAPn: on bytecode `60 01 60 02 60 03 91 00`
(PUSH1 1; PUSH1 2; PUSH1 3; SWAP2; STOP) with 100000 gas, the three
pushes leave the stack `[3, 2, 1]` (top first); the SWAP2 step
executes successfully, but the immediately following `step_backward`
returns the stack `[3, 1, 3]` instead of the pre-step `[3, 2, 1]`:
the journal's four pop/pop/push/push deltas for SWAPn only touch the
top two slots, so the rewind is not the identity. -/
theorem swap_rewind_not_identity :
    (let vm0 := TTBD.Vm.new [0x60, 1, 0x60, 2, 0x60, 3, 0x91, 0x00] 100000
      TTBD.BlockContext.default
     let vm3 := (TTBD.stepForward (TTBD.stepForward (TTBD.stepForward vm0).2).2).2
     let r4 := TTBD.stepForward vm3
     let r5 := TTBD.stepBackward r4.2
     vm3.state.stack = [3, 2, 1] ∧
     r4.1 = .ok (.executed 0x91 3) ∧
     r5.1 = .ok (.rewound 1) ∧
     r5.2.state.stack = [3, 1, 3] ∧
     r5.2.state.stack ≠ vm3.state.stack) := by
  decide

/-- C7 (witness). The table instantiated at PUSH2: base gas 3 and
immediate size 2. -/
theorem gas_cost_table_contract_witness :
    1 < 32 ∧ TTBD.baseGas (0x60 + 1) = 3 ∧ TTBD.immediateSize (0x60 + 1) = 2 :=
  ⟨by norm_num, (gas_cost_table_contract.1 1 (by norm_num)).1,
   (gas_cost_table_contract.1 1 (by norm_num)).2.1⟩
